import Mathlib

namespace Blackhole

/-!
# go-blackhole: the ban engine

A model of `blackhole.go`: the extraction of the offending address from a log line
(`globalState.exprs`, `processLogEntry`), the destination of the blackhole route
(`ipToMask`), and the two handlers of the event loop (`processLogEntry`, `processTick`)
acting on the table `bans` and on the blackhole routes of the kernel. Texts are lists of
characters. The SQL engine and the kernel are collaborators of the program and appear as
parameters.
-/

/-! ## The `regexp` package, as far as `globalState.exprs` needs it -/

/-- The class `\s` of Go regular expressions: `[\t\n\f\r ]`. -/
def isSpace (c : Char) : Bool :=
  c = ' ' || c = '\t' || c = '\n' || c = Char.ofNat 12 || c = '\r'

/-- The regular expressions that occur in `globalState.exprs`: literal text, `[^\s]+`,
`(?:r)?`, `r|s`, concatenation and the capturing group. -/
inductive Regex where
  | lit (s : List Char)
  | notSpacePlus
  | opt (r : Regex)
  | alt (a b : Regex)
  | seq (a b : Regex)
  | group (r : Regex)

/-- The text after the literal `s`, when the input starts with `s`. -/
def stripLit : List Char → List Char → Option (List Char)
  | [], inp => some inp
  | _ :: _, [] => none
  | a :: as, b :: bs => if a = b then stripLit as bs else none

/-- The ways `[^\s]+` matches at the start of the input, as (matched text, rest), the
longest match first (the operator is greedy). -/
def spanNotSpace : List Char → List (List Char × List Char)
  | [] => []
  | c :: cs =>
    if isSpace c then []
    else ((spanNotSpace cs).map fun p => (c :: p.1, p.2)) ++ [([c], cs)]

/-- All matches of `r` at the start of the input, in the order in which a backtracking
search finds them, each as (text of the capturing group if it took part, rest of the
input). Go prefers the first: the left branch of `|`, the longer repetition, the
present optional part. -/
def Regex.run : Regex → List Char → List (Option (List Char) × List Char)
  | .lit s, inp =>
    match stripLit s inp with
    | some rest => [(none, rest)]
    | none => []
  | .notSpacePlus, inp => (spanNotSpace inp).map fun p => (none, p.2)
  | .opt r, inp => r.run inp ++ [(none, inp)]
  | .alt a b, inp => a.run inp ++ b.run inp
  | .seq a b, inp =>
    (a.run inp).flatMap fun p => (b.run p.2).map fun q => (q.1.orElse fun _ => p.1, q.2)
  | .group r, inp =>
    (r.run inp).map fun p => (some (inp.take (inp.length - p.2.length)), p.2)

/-- `expr.FindStringSubmatch(s)`: the leftmost match, and at that position the one a
backtracking search finds first; the result holds the matched text and the text of
group 1 (empty if the group took no part), none (nil) when nothing matches. -/
def findStringSubmatch (r : Regex) : List Char → Option (List (List Char))
  | [] =>
    match r.run [] with
    | p :: _ => some [[], p.1.getD []]
    | [] => none
  | c :: cs =>
    match r.run (c :: cs) with
    | p :: _ => some [(c :: cs).take ((c :: cs).length - p.2.length), p.1.getD []]
    | [] => findStringSubmatch r cs

/-- The one expression of `globalState.exprs`:
`Failed (?:password|publickey) for (?:invalid user )?[^\s]+ from ([^\s]+) port`. -/
def failedLogin : Regex :=
  .seq (.lit "Failed ".toList) (.seq (.alt (.lit "password".toList) (.lit "publickey".toList))
    (.seq (.lit " for ".toList) (.seq (.opt (.lit "invalid user ".toList))
      (.seq .notSpacePlus (.seq (.lit " from ".toList)
        (.seq (.group .notSpacePlus) (.lit " port".toList)))))))

/-- The list `globalState.exprs`. -/
def exprs : List Regex := [failedLogin]

/-- The first loop of `processLogEntry`: `ip` starts empty and takes `matches[1]` of the
first expression that matches. -/
def extractIP : List Regex → List Char → List Char
  | [], _ => []
  | e :: es, logEntry =>
    match findStringSubmatch e logEntry with
    | some m => m.getD 1 []
    | none => extractIP es logEntry

/-! ## The `net` package: addresses, masks, parsing -/

/-- Go's `net.IP`: a byte slice, each byte a number below 256. The nil slice (what
`net.ParseIP` returns on failure) is the empty list. -/
abbrev IP := List Nat

/-- Go's `net.IPMask`; the nil mask is the empty list. -/
abbrev IPMask := List Nat

/-- Go's `net.IPNet`, built by `ipToMask` as a struct literal. -/
structure IPNet where
  IP : IP
  Mask : IPMask
  deriving DecidableEq, Repr

def IPv4len : Nat := 4

def IPv6len : Nat := 16

/-- The twelve bytes `v4InV6Prefix` that precede an IPv4 address in 16-byte form. -/
def v4InV6Prefix : List Nat := [0, 0, 0, 0, 0, 0, 0, 0, 0, 0, 255, 255]

/-- `net.IPv4(a, b, c, d)`: the 16-byte form of an IPv4 address. -/
def IPv4 (a b c d : Nat) : IP := v4InV6Prefix ++ [a, b, c, d]

/-- `ip.To4()`: the 4-byte form of an IPv4 address (also of an IPv4-mapped 16-byte
address), nil otherwise. -/
def To4 (ip : IP) : IP :=
  if ip.length = IPv4len then ip
  else if ip.length = IPv6len ∧ (ip.take 10).all (fun b => b == 0) ∧
      ip.getD 10 0 = 255 ∧ ip.getD 11 0 = 255 then ip.drop 12
  else []

/-- The loop of `net.CIDRMask` over the `l` remaining bytes with `n` one-bits left:
`0xff` while `n >= 8`, then `^byte(0xff >> n)`, then zeros. -/
def cidrBytes : Nat → Nat → List Nat
  | 0, _ => []
  | l + 1, n =>
    if 8 ≤ n then 255 :: cidrBytes l (n - 8)
    else (255 - 255 / 2 ^ n) :: cidrBytes l 0

/-- `net.CIDRMask(ones, bits)`: nil unless `bits` is 32 or 128 and `0 <= ones <= bits`. -/
def CIDRMask (ones bits : Int) : IPMask :=
  if bits ≠ 32 ∧ bits ≠ 128 then []
  else if ones < 0 ∨ bits < ones then []
  else cidrBytes (bits / 8).toNat ones.toNat

/-- The inner loop of `simpleMaskLength`: `for v&0x80 != 0 { n++; v <<= 1 }` on a byte;
eight rounds empty any byte. -/
def countOnes : Nat → Nat → Int → Nat × Int
  | 0, v, n => (v, n)
  | fuel + 1, v, n =>
    if v / 128 % 2 = 1 then countOnes fuel (v * 2 % 256) (n + 1) else (v, n)

/-- `simpleMaskLength`: the number of leading one-bits of a mask of the form 1..10..0,
and -1 for any other mask. -/
def simpleMaskLength : IPMask → Int → Int
  | [], n => n
  | v :: rest, n =>
    if v = 255 then simpleMaskLength rest (n + 8)
    else
      let r := countOnes 8 v n
      if r.1 ≠ 0 then -1
      else if rest.all (fun b => b == 0) then r.2 else -1

/-- `mask.Size()`: the prefix length and the width in bits, `(0, 0)` for a mask that is
not in canonical form. -/
def Size (m : IPMask) : Int × Int :=
  let ones := simpleMaskLength m 0
  if ones = -1 then (0, 0) else (ones, 8 * (m.length : Int))

/-- Bitwise and of two bytes. -/
def andByte (a b : Nat) : Nat := Nat.land a b

/-- `ip.Mask(mask)`: the address with the bits outside the mask cleared, nil when the
lengths do not fit. This is the masked network address of the specification; the program
itself never calls it. -/
def Mask (ip : IP) (mask : IPMask) : IP :=
  let mask := if mask.length = IPv6len ∧ ip.length = IPv4len ∧
      (mask.take 12).all (fun b => b == 255) then mask.drop 12 else mask
  let ip := if mask.length = IPv4len ∧ ip.length = IPv6len ∧ ip.take 12 = v4InV6Prefix
    then ip.drop 12 else ip
  if ip.length ≠ mask.length then [] else List.zipWith andByte ip mask

/-- The value of a hexadecimal digit, none for any other character. -/
def hexVal (c : Char) : Option Nat :=
  if '0' ≤ c ∧ c ≤ '9' then some (c.toNat - 48)
  else if 'a' ≤ c ∧ c ≤ 'f' then some (c.toNat - 97 + 10)
  else if 'A' ≤ c ∧ c ≤ 'F' then some (c.toNat - 65 + 10)
  else none

/-- The loop of `parseIPv4Fields` (package `net/netip`) over the rest of the text:
`atStart` says that the character is the first one, `prevDot` that the one before it was
a dot, `val` is the value and `digLen` the number of digits of the octet being read,
`fields` the octets read so far (`pos` of them). An octet with a leading zero, an octet
above 255, an empty octet, a fifth octet and any character that is neither a digit nor a
dot end in none (an error); at the end there must be four octets. -/
def parseIPv4FieldsLoop :
    List Char → Bool → Bool → Nat → Nat → Nat → List Nat → Option (List Nat)
  | [], _, _, val, pos, _, fields => if pos < 3 then none else some (fields ++ [val])
  | c :: cs, atStart, prevDot, val, pos, digLen, fields =>
    if '0' ≤ c ∧ c ≤ '9' then
      if digLen = 1 ∧ val = 0 then none
      else if 255 < val * 10 + (c.toNat - 48) then none
      else parseIPv4FieldsLoop cs false false (val * 10 + (c.toNat - 48)) pos (digLen + 1)
        fields
    else if c = '.' then
      if atStart = true ∨ cs = [] ∨ prevDot = true then none
      else if pos = 3 then none
      else parseIPv4FieldsLoop cs false true 0 (pos + 1) 0 (fields ++ [val])
    else none

/-- `parseIPv4Fields` on a whole text: the four octets of a dotted decimal address. -/
def parseIPv4Fields (s : List Char) : Option (List Nat) :=
  parseIPv4FieldsLoop s true false 0 0 0 []

/-- The inner loop of `parseIPv6` that reads one group of hexadecimal digits: the value
and the number of digits read; none (an error) for a fifth digit or a value above
`0xFFFF`. -/
def hexGroupLoop : List Char → Nat → Nat → Option (Nat × Nat)
  | [], acc, off => some (acc, off)
  | c :: cs, acc, off =>
    match hexVal c with
    | none => some (acc, off)
    | some d =>
      if 3 < off then none
      else if 0xFFFF < acc * 16 + d then none
      else hexGroupLoop cs (acc * 16 + d) (off + 1)

/-- The outer loop of `parseIPv6`: `acc` holds the bytes written so far (its length is
the index `i`), `ellipsis` the position of `::`. Every round writes at least two bytes, so
eight rounds suffice. The result is the rest of the text with the final `acc` and
`ellipsis`; none where the Go code returns an error inside the loop. -/
def parseIPv6Loop : Nat → List Char → List Nat → Option Nat →
    Option (List Char × List Nat × Option Nat)
  | 0, s, acc, ellipsis => some (s, acc, ellipsis)
  | fuel + 1, s, acc, ellipsis =>
    if IPv6len ≤ acc.length then some (s, acc, ellipsis)
    else
      match hexGroupLoop s 0 0 with
      | none => none
      | some g =>
        if g.2 = 0 then none
        else if (s.drop g.2).head? = some '.' then
          if ellipsis = none ∧ acc.length ≠ IPv6len - IPv4len then none
          else if IPv6len < acc.length + IPv4len then none
          else
            match parseIPv4Fields s with
            | none => none
            | some fields => some ([], acc ++ fields, ellipsis)
        else
          let acc := acc ++ [g.1 / 256 % 256, g.1 % 256]
          let s := s.drop g.2
          match s with
          | [] => some ([], acc, ellipsis)
          | [_] => none
          | c :: d :: t =>
            if c ≠ ':' then none
            else if d = ':' then
              if ellipsis ≠ none then none
              else
                match t with
                | [] => some ([], acc, some acc.length)
                | _ => parseIPv6Loop fuel t acc (some acc.length)
            else parseIPv6Loop fuel (d :: t) acc ellipsis

/-- The body of `parseIPv6` of `net/netip`, after the zone has been split off:
hexadecimal groups, at most one `::`, optionally a trailing dotted IPv4 part; the result
is the 16 bytes, none on an error. -/
def parseIPv6Body (s : List Char) : Option IP :=
  let start : List Char × Option Nat :=
    match s with
    | ':' :: ':' :: t => (t, some 0)
    | _ => (s, none)
  if start.2 ≠ none ∧ start.1 = [] then some (List.replicate IPv6len 0)
  else
    match parseIPv6Loop 8 start.1 [] start.2 with
    | none => none
    | some (rest, acc, ell) =>
      if rest ≠ [] then none
      else if acc.length < IPv6len then
        match ell with
        | none => none
        | some e => some (acc.take e ++ List.replicate (IPv6len - acc.length) 0 ++ acc.drop e)
      else if ell ≠ none then none
      else some acc

/-- `parseIPv6` of `net/netip`: the zone after the first `%` is split off (a zone that is
named but empty is an error) and the text before it is parsed; the result is the 16 bytes
and the zone. -/
def parseIPv6 (inp : List Char) : Option (IP × List Char) :=
  match inp.dropWhile (fun c => c ≠ '%') with
  | [_] => none
  | tail =>
    match parseIPv6Body (inp.takeWhile (fun c => c ≠ '%')) with
    | some ip => some (ip, tail.drop 1)
    | none => none

/-- `netip.ParseAddr(s)` as 16 bytes (`As16`) and zone: the first dot, colon or percent
sign of the text decides between the IPv4 parser, the IPv6 parser and an error; a text
with none of them is no address. -/
def ParseAddr (s : List Char) : Option (IP × List Char) :=
  match s.find? (fun c => c = '.' ∨ c = ':' ∨ c = '%') with
  | some '.' =>
    match parseIPv4Fields s with
    | some fields => some (v4InV6Prefix ++ fields, [])
    | none => none
  | some ':' => parseIPv6 s
  | _ => none

/-- `net.ParseIP(s)`, which in the current Go standard library is `netip.ParseAddr`
without zone: the 16-byte form of the address, nil when the text is no address or names a
zone. -/
def ParseIP (s : List Char) : IP :=
  match ParseAddr s with
  | some (ip, zone) => if zone ≠ [] then [] else ip
  | none => []

/-! ## Configuration -/

def ipv4PrefixDefault : Int := 32

def ipv6PrefixDefault : Int := 64

/-- The default `blacklistDurationDefault` of 30 minutes, in seconds. -/
def blacklistSecondsDefault : Int := 30 * 60

/-- The fields of `globalState` that the flags set once at start-up.
`blacklistSeconds` is the value of `int64(globalState.blacklistDuration.Seconds())`, the
only form in which the program uses the duration; the floating-point conversion itself
is not part of the model. -/
structure Config where
  ipv4PrefixLen : Int
  ipv6PrefixLen : Int
  blacklistSeconds : Int

def defaultConfig : Config :=
  ⟨ipv4PrefixDefault, ipv6PrefixDefault, blacklistSecondsDefault⟩

/-- Two's-complement wrap of an integer to `int64`. -/
def wrapInt64 (x : Int) : Int := (x + 2 ^ 63) % 2 ^ 64 - 2 ^ 63

/-! ## The ban store -/

/-- A row of the table `bans (ip TEXT NOT NULL UNIQUE, expiry_ts INTEGER)`. -/
structure Ban where
  ip : List Char
  expiry_ts : Int
  deriving DecidableEq, Repr

/-- The contents of the table `bans`, in row order. -/
abbrev Table := List Ban

/-- The two statements the program hands to `db.Exec`. Each stands for the text that
`fmt.Sprintf` builds, with `ip` spliced between single quotes exactly as it is:
`REPLACE INTO bans(ip, expiry_ts) VALUES('<ip>', <expiry_ts>)` and
`DELETE FROM bans WHERE ip = '<ip>'`. -/
inductive Stmt where
  | replaceInto (ip : List Char) (expiry_ts : Int)
  | deleteFrom (ip : List Char)
  deriving DecidableEq, Repr

/-- What `db.Query` hands back: the outcome of `rows.Scan` for every row that
`rows.Next` yields, and the final `rows.Err()`. -/
structure Rows where
  scans : List (Except String (List Char))
  err : Option String

/-- The SQL engine behind `globalState.db`, an external collaborator. `exec` runs a
statement on the table and returns the table afterwards together with the error, if
any; `query now` runs `SELECT ip FROM bans WHERE expiry_ts < <now>`. -/
structure Engine where
  exec : Stmt → Table → Table × Option String
  query : Int → Table → Except String Rows

/-- The single quote, which ends an SQL string literal. -/
def quote : Char := Char.ofNat 39

/-- The text can stand between single quotes in a statement and be read back as itself:
it holds no single quote. -/
def QuoteFree (ip : List Char) : Prop := quote ∉ ip

instance (ip : List Char) : Decidable (QuoteFree ip) :=
  inferInstanceAs (Decidable (quote ∉ ip))

/-- `REPLACE INTO` on a table whose `ip` column is unique: the row with the same `ip`,
if there is one, is deleted and the new row is inserted. -/
def replaceRow (ip : List Char) (expiry_ts : Int) (t : Table) : Table :=
  t.filter (fun r => r.ip ≠ ip) ++ [⟨ip, expiry_ts⟩]

/-- `DELETE FROM bans WHERE ip = ...`: every row with that `ip` goes; no row with it is
not an error. -/
def deleteRow (ip : List Char) (t : Table) : Table :=
  t.filter (fun r => r.ip ≠ ip)

/-- The rows selected by `WHERE expiry_ts < now`, as their `ip` column. -/
def expiredIPs (now : Int) (t : Table) : List (List Char) :=
  (t.filter (fun r => r.expiry_ts < now)).map (fun r => r.ip)

/-- The engine does what SQL says for the statements of the program, whenever the
spliced text is free of single quotes; the rows of a query come in any order. For a text
with a single quote the statement is not the one the program meant and nothing is
assumed of the engine. -/
structure Engine.Sound (E : Engine) : Prop where
  replace_ok : ∀ ip ts t, QuoteFree ip →
    E.exec (.replaceInto ip ts) t = (replaceRow ip ts t, none)
  delete_ok : ∀ ip t, QuoteFree ip → E.exec (.deleteFrom ip) t = (deleteRow ip t, none)
  query_ok : ∀ now t, ∃ ips : List (List Char), ips.Perm (expiredIPs now t) ∧
    E.query now t = .ok ⟨ips.map .ok, none⟩

/-- The engine keeps the `UNIQUE` constraint of the `ip` column, whatever it executes. -/
def Engine.KeepsUnique (E : Engine) : Prop :=
  ∀ stmt t, (t.map Ban.ip).Nodup → ((E.exec stmt t).1.map Ban.ip).Nodup

/-- A reference engine: it runs the statements whose text is well formed and reports a
syntax error, leaving the table alone, for the others. -/
def sqlEngine : Engine where
  exec := fun stmt t =>
    match stmt with
    | .replaceInto ip ts =>
      if quote ∈ ip then (t, some "syntax error") else (replaceRow ip ts t, none)
    | .deleteFrom ip =>
      if quote ∈ ip then (t, some "syntax error") else (deleteRow ip t, none)
  query := fun now t => .ok ⟨(expiredIPs now t).map .ok, none⟩

/-- An engine whose storage is out of order: every statement and every query fails. -/
def brokenEngine : Engine where
  exec := fun _ t => (t, some "disk I/O error")
  query := fun _ _ => .error "disk I/O error"

/-- An engine that answers the query but fails while iterating the rows. -/
def failingRowsEngine : Engine where
  exec := fun _ t => (t, some "disk I/O error")
  query := fun _ _ => .ok ⟨[], some "disk I/O error"⟩

/-! ## The kernel route table -/

/-- The kernel behind `netlink.RouteAdd` and `netlink.RouteDel`, an external
collaborator: `key dst` is the destination network under which the kernel files a
blackhole route for `dst`, or none when it refuses the request. -/
structure Netlink where
  key : IPNet → Option IPNet

/-- The destination of a route request as the kernel files it. The netlink library
itself refuses a route whose `Dst.IP` is nil (`one of Dst.IP, Src, or Gw must not be
nil`) before the kernel sees it. -/
def Netlink.dest (K : Netlink) (dst : IPNet) : Option IPNet :=
  if dst.IP = [] then none else K.key dst

/-- `netlink.RouteAdd` of a blackhole route (the request creates a route and excludes
an existing one): an error when the request is refused or when a route for the same
destination exists. -/
def Netlink.RouteAdd (K : Netlink) (dst : IPNet) (routes : List IPNet) :
    Except String (List IPNet) :=
  match K.dest dst with
  | none => .error "invalid argument"
  | some k => if k ∈ routes then .error "file exists" else .ok (routes ++ [k])

/-- `netlink.RouteDel` of a blackhole route: an error when the request is refused or
when there is no route for the destination. -/
def Netlink.RouteDel (K : Netlink) (dst : IPNet) (routes : List IPNet) :
    Except String (List IPNet) :=
  match K.dest dst with
  | none => .error "invalid argument"
  | some k => if k ∈ routes then .ok (routes.erase k) else .error "no such process"

/-- A kernel that files every destination exactly as it is submitted. -/
def netlinkExact : Netlink where
  key := fun dst => some dst

/-! ## The program -/

/-- The mutable world of the daemon: the table `bans` and the blackhole routes of the
kernel. -/
structure State where
  bans : Table
  routes : List IPNet
  deriving DecidableEq, Repr

/-- The outcome of handling an event: the loop goes on, or `log.Fatal` has ended the
process (the state is what it left behind). -/
inductive Run where
  | running (s : State)
  | exited (s : State)
  deriving DecidableEq, Repr

/-- `ipToMask`: the address as it is, with the mask of the prefix length of its family. -/
def ipToMask (cfg : Config) (ip : IP) : IPNet :=
  let ipMask :=
    if To4 ip ≠ [] then CIDRMask cfg.ipv4PrefixLen 32
    else CIDRMask cfg.ipv6PrefixLen 128
  { IP := ip, Mask := ipMask }

/-- `addBlackholeRoute` on the route table `routes`; the log line is not part of the
state. -/
def addBlackholeRoute (cfg : Config) (K : Netlink) (ip : IP) (routes : List IPNet) :
    Except String (List IPNet) :=
  let ipnet := ipToMask cfg ip
  K.RouteAdd ipnet routes

/-- `removeBlackholeRoute` on the route table `routes`. -/
def removeBlackholeRoute (cfg : Config) (K : Netlink) (ip : IP) (routes : List IPNet) :
    Except String (List IPNet) :=
  let ipnet := ipToMask cfg ip
  K.RouteDel ipnet routes

/-- `processLogEntry` at the clock reading `now` (the value of `time.Now().Unix()`). -/
def processLogEntry (cfg : Config) (E : Engine) (K : Netlink) (now : Int)
    (logEntry : List Char) (s : State) : State :=
  let ip := extractIP exprs logEntry
  if ip = [] then s
  else
    let expiry_ts := wrapInt64 (now + cfg.blacklistSeconds)
    -- Record in database
    match E.exec (.replaceInto ip expiry_ts) s.bans with
    | (bans, some _) => { s with bans := bans }
    | (bans, none) =>
      -- Apply blacklist route
      match addBlackholeRoute cfg K (ParseIP ip) s.routes with
      | .error _ => { s with bans := bans }
      | .ok routes => { bans := bans, routes := routes }

/-- The rows that `rows.Scan` read without error, in order: a failed scan is skipped. -/
def scannedIPs : List (Except String (List Char)) → List (List Char)
  | [] => []
  | .ok ip :: rest => ip :: scannedIPs rest
  | .error _ :: rest => scannedIPs rest

/-- The body of the second loop of `processTick` for one address: the route goes first,
and the row is deleted only when that worked. -/
def expireBan (cfg : Config) (E : Engine) (K : Netlink) (s : State) (ip : List Char) :
    State :=
  match removeBlackholeRoute cfg K (ParseIP ip) s.routes with
  | .error _ => s
  | .ok routes => { bans := (E.exec (.deleteFrom ip) s.bans).1, routes := routes }

/-- `processTick` at the clock reading `now`. -/
def processTick (cfg : Config) (E : Engine) (K : Netlink) (now : Int) (s : State) : Run :=
  match E.query now s.bans with
  | .error _ => .exited s
  | .ok rows =>
    let ips := scannedIPs rows.scans
    match rows.err with
    | some _ => .exited s
    | none => .running (ips.foldl (expireBan cfg E K) s)

/-- What the `select` of `eventLoop` receives: a log line from the journal channel or a
tick of the ticker, each with the clock reading taken while it is handled. -/
inductive Event where
  | logEntry (now : Int) (line : List Char)
  | tick (now : Int)
  deriving DecidableEq, Repr

/-- `eventLoop` over the events that arrive, one at a time; it ends only when
`log.Fatal` ends the process, and then the remaining events are never handled. -/
def eventLoop (cfg : Config) (E : Engine) (K : Netlink) : List Event → State → Run
  | [], s => .running s
  | .logEntry now line :: rest, s =>
    eventLoop cfg E K rest (processLogEntry cfg E K now line s)
  | .tick now :: rest, s =>
    match processTick cfg E K now s with
    | .running s1 => eventLoop cfg E K rest s1
    | .exited s1 => .exited s1

/-! ## Vocabulary of the properties -/

/-- The kernel destination of the blackhole route of the address written `ip`, none when
the text is no address or the kernel refuses the destination. -/
def routeOf (cfg : Config) (K : Netlink) (ip : List Char) : Option IPNet :=
  K.dest (ipToMask cfg (ParseIP ip))

/-- The state a run has reached, whether the loop goes on or the process has ended. -/
def Run.state : Run → State
  | .running s => s
  | .exited s => s

/-- The sum fits `int64`. -/
def InInt64 (x : Int) : Prop := -2 ^ 63 ≤ x ∧ x < 2 ^ 63

instance (x : Int) : Decidable (InInt64 x) :=
  inferInstanceAs (Decidable (-2 ^ 63 ≤ x ∧ x < 2 ^ 63))

/-- A token: a non-empty run of characters none of which is in the class `\s` of Go
(space, tab, newline, form feed, carriage return). -/
def Tok (w : List Char) : Prop := w ≠ [] ∧ ∀ c ∈ w, isSpace c = false

instance (w : List Char) : Decidable (Tok w) :=
  inferInstanceAs (Decidable (w ≠ [] ∧ ∀ c ∈ w, isSpace c = false))

/-- The text `inp` begins with a failed-login phrase whose address token is `ip`:
`Failed (password|publickey) for [invalid user ]<user> from <ip> port`, followed by
`rest`. -/
def MatchHere (inp ip rest : List Char) : Prop :=
  ∃ kw inv user,
    (kw = "password".toList ∨ kw = "publickey".toList) ∧
    (inv = [] ∨ inv = "invalid user ".toList) ∧ Tok user ∧ Tok ip ∧
    inp = "Failed ".toList ++ (kw ++ (" for ".toList ++ (inv ++ (user ++
      (" from ".toList ++ (ip ++ (" port".toList ++ rest)))))))

/-- The failed-login phrase occurs in `line` right after `pre`, with address token
`ip`. -/
def Occurs (line pre ip : List Char) : Prop :=
  ∃ tail rest, line = pre ++ tail ∧ MatchHere tail ip rest

/-! ## Inputs of the worked examples -/

/-- The line of the end-to-end scenario. -/
def scenarioLine : List Char :=
  "Failed password for invalid user admin from 203.0.113.7 port 51514 ssh2".toList

/-- The line of a failed login from 203.0.113.7 under the user name
`x from localhost port`. -/
def injectedLine : List Char :=
  "Failed password for invalid user x from localhost port from 203.0.113.7 port 51514 ssh2".toList

/-- A failed-login line that writes 203.0.113.7 in IPv4-mapped form. -/
def mappedLine : List Char :=
  "Failed password for root from ::ffff:203.0.113.7 port 51515 ssh2".toList

/-- A failed-login line from 2001:db8::1, in lower case. -/
def lowerLine : List Char :=
  "Failed password for root from 2001:db8::1 port 40000 ssh2".toList

/-- A failed-login line from the same address, in upper case. -/
def upperLine : List Char :=
  "Failed password for root from 2001:DB8::1 port 40001 ssh2".toList

/-- A failed-login line whose token after `from` is no address. -/
def hostnameLine : List Char :=
  "Failed password for root from evil port 22 ssh2".toList

/-- The route of 203.0.113.7/32: the address in 16-byte form under the mask of 32 ones. -/
def scenarioRoute : IPNet :=
  { IP := IPv4 203 0 113 7, Mask := [255, 255, 255, 255] }

/-- The route of 198.51.100.9/32. -/
def otherRoute : IPNet :=
  { IP := IPv4 198 51 100 9, Mask := [255, 255, 255, 255] }

/-- Two expired bans of which only the second still has its route, as after a reboot
that emptied the route table and a later ban of 198.51.100.9. -/
def halfRoutedState : State :=
  { bans := [⟨"203.0.113.7".toList, 100⟩, ⟨"198.51.100.9".toList, 150⟩],
    routes := [otherRoute] }

/-- One ban whose route is not in the route table. -/
def staleState : State :=
  { bans := [⟨"192.0.2.44".toList, 1000⟩], routes := [] }

/-- One ban of 203.0.113.7 that a former run, with a ban duration of more than a day,
left in the table. -/
def inheritedState : State :=
  { bans := [⟨"203.0.113.7".toList, 100000⟩], routes := [scenarioRoute] }

/-- One ban with its route installed. -/
def bannedState : State :=
  { bans := [⟨"203.0.113.7".toList, 2800⟩], routes := [scenarioRoute] }

/-! ## The extraction of the address -/

theorem stripLit_eq_some (s inp rest : List Char) :
    stripLit s inp = some rest ↔ inp = s ++ rest := by
  induction s generalizing inp with
  | nil => simp [stripLit, eq_comm]
  | cons a as ih =>
    cases inp with
    | nil => simp [stripLit]
    | cons b bs =>
      by_cases h : a = b
      · simp [stripLit, h, ih]
      · simp [stripLit, h, Ne.symm h]

theorem mem_spanNotSpace (inp w rest : List Char) :
    (w, rest) ∈ spanNotSpace inp ↔ Tok w ∧ inp = w ++ rest := by
  induction inp generalizing w with
  | nil => simp [spanNotSpace, Tok]; intro h _ h2; simp_all
  | cons c cs ih =>
    unfold spanNotSpace
    cases hc : isSpace c with
    | true =>
      simp only [if_true, List.not_mem_nil, false_iff, Tok]
      rintro ⟨⟨hne, hall⟩, heq⟩
      cases w with
      | nil => exact hne rfl
      | cons d ds =>
        simp at heq
        have := hall d (by simp)
        rw [← heq.1, hc] at this
        cases this
    | false =>
      simp only [Bool.false_eq_true, if_false, List.mem_append, List.mem_map,
        List.mem_singleton, Prod.mk.injEq, Prod.exists]
      constructor
      · rintro (⟨a, b, hab, rfl, rfl⟩ | ⟨rfl, rfl⟩)
        · obtain ⟨⟨_, hall⟩, rfl⟩ := (ih a).1 hab
          refine ⟨⟨by simp, ?_⟩, by simp⟩
          intro d hd
          simp at hd
          rcases hd with rfl | hd
          · exact hc
          · exact hall d hd
        · exact ⟨⟨by simp, by simpa using hc⟩, by simp⟩
      · rintro ⟨⟨hne, hall⟩, heq⟩
        cases w with
        | nil => exact absurd rfl hne
        | cons d ds =>
          simp at heq
          obtain ⟨rfl, rfl⟩ := heq
          cases ds with
          | nil => right; simp
          | cons e es =>
            left
            refine ⟨e :: es, rest, (ih (e :: es)).2 ⟨⟨by simp, ?_⟩, rfl⟩, rfl, rfl⟩
            intro x hx
            exact hall x (List.mem_cons_of_mem _ hx)

theorem run_lit (s inp : List Char) (p : Option (List Char) × List Char) :
    p ∈ (Regex.lit s).run inp ↔ p.1 = none ∧ inp = s ++ p.2 := by
  obtain ⟨c, rest⟩ := p
  unfold Regex.run
  cases h : stripLit s inp with
  | none =>
    simp only [List.not_mem_nil, false_iff, not_and]
    intro _ h2
    have := (stripLit_eq_some s inp rest).2 h2
    simp [h] at this
  | some r =>
    have := (stripLit_eq_some s inp r).1 h
    subst this
    simp [eq_comm]

theorem run_notSpacePlus (inp : List Char) (p : Option (List Char) × List Char) :
    p ∈ Regex.notSpacePlus.run inp ↔ p.1 = none ∧ ∃ w, Tok w ∧ inp = w ++ p.2 := by
  obtain ⟨c, rest⟩ := p
  simp only [Regex.run, List.mem_map, Prod.mk.injEq, Prod.exists]
  constructor
  · rintro ⟨w, r, h, rfl, rfl⟩
    exact ⟨rfl, w, (mem_spanNotSpace inp w r).1 h⟩
  · rintro ⟨rfl, w, h⟩
    exact ⟨w, rest, (mem_spanNotSpace inp w rest).2 h, rfl, rfl⟩


theorem run_seq (a b : Regex) (inp : List Char) (p : Option (List Char) × List Char) :
    p ∈ (Regex.seq a b).run inp ↔
      ∃ p1 ∈ a.run inp, ∃ p2 ∈ b.run p1.2, p = (p2.1.orElse fun _ => p1.1, p2.2) := by
  simp only [Regex.run, List.mem_flatMap, List.mem_map]
  constructor
  · rintro ⟨p1, h1, p2, h2, rfl⟩
    exact ⟨p1, h1, p2, h2, rfl⟩
  · rintro ⟨p1, h1, p2, h2, rfl⟩
    exact ⟨p1, h1, p2, h2, rfl⟩

theorem run_alt (a b : Regex) (inp : List Char) (p : Option (List Char) × List Char) :
    p ∈ (Regex.alt a b).run inp ↔ p ∈ a.run inp ∨ p ∈ b.run inp := by
  simp [Regex.run]

theorem run_opt (r : Regex) (inp : List Char) (p : Option (List Char) × List Char) :
    p ∈ (Regex.opt r).run inp ↔ p ∈ r.run inp ∨ p = (none, inp) := by
  simp [Regex.run]

theorem run_group (r : Regex) (inp : List Char) (p : Option (List Char) × List Char) :
    p ∈ (Regex.group r).run inp ↔
      ∃ q ∈ r.run inp, p = (some (inp.take (inp.length - q.2.length)), q.2) := by
  simp only [Regex.run, List.mem_map]
  constructor
  · rintro ⟨q, hq, rfl⟩
    exact ⟨q, hq, rfl⟩
  · rintro ⟨q, hq, rfl⟩
    exact ⟨q, hq, rfl⟩

theorem run_failedLogin (inp : List Char) (p : Option (List Char) × List Char) :
    p ∈ failedLogin.run inp ↔ ∃ ip, p.1 = some ip ∧ MatchHere inp ip p.2 := by
  obtain ⟨c, rest⟩ := p
  simp only [failedLogin, run_seq, run_alt, run_opt, run_group, run_lit, run_notSpacePlus,
    MatchHere]
  constructor
  · rintro ⟨⟨c1, r1⟩, ⟨hc1, rfl⟩, ⟨c2, r2⟩, ⟨⟨c3, r3⟩, hkw, ⟨c4, r4⟩,
      ⟨⟨c5, r5⟩, ⟨hc5, h5⟩, ⟨c6, r6⟩, ⟨⟨c7, r7⟩, hinv, ⟨c8, r8⟩, ⟨⟨c9, r9⟩, ⟨hc9, user, huser, h9⟩,
        ⟨c10, r10⟩, ⟨⟨c11, r11⟩, ⟨hc11, h11⟩, ⟨c12, r12⟩, ⟨⟨c13, r13⟩,
          ⟨⟨c14, r14⟩, ⟨hc14, ip, hip, h14⟩, h13⟩, ⟨c15, r15⟩, ⟨hc15, h15⟩, h12⟩, h10⟩, h8⟩,
            h6⟩, h4⟩, h2⟩, h⟩
    simp only [Prod.mk.injEq] at h h2 h4 h6 h8 h10 h12 h13 hinv
    obtain ⟨rfl, rfl⟩ := h
    obtain ⟨rfl, rfl⟩ := h2
    obtain ⟨rfl, rfl⟩ := h4
    obtain ⟨rfl, rfl⟩ := h6
    obtain ⟨rfl, rfl⟩ := h8
    obtain ⟨rfl, rfl⟩ := h10
    obtain ⟨rfl, rfl⟩ := h12
    obtain ⟨rfl, rfl⟩ := h13
    subst hc15 hc14 hc11 hc9 hc5 hc1 h15 h14 h11 h9 h5
    refine ⟨ip, by simp [Option.orElse], ?_⟩
    rcases hkw with ⟨_, rfl⟩ | ⟨_, rfl⟩ <;> rcases hinv with ⟨_, rfl⟩ | ⟨_, rfl⟩
    · exact ⟨_, _, user, Or.inl rfl, Or.inr rfl, huser, hip, rfl⟩
    · exact ⟨_, [], user, Or.inl rfl, Or.inl rfl, huser, hip, rfl⟩
    · exact ⟨_, _, user, Or.inr rfl, Or.inr rfl, huser, hip, rfl⟩
    · exact ⟨_, [], user, Or.inr rfl, Or.inl rfl, huser, hip, rfl⟩
  · rintro ⟨ip, hc, kw, inv, user, hkw, hinv, huser, hip, h⟩
    subst hc
    have hcap : ip = List.take ((ip ++ (" port".toList ++ rest)).length
        - (" port".toList ++ rest).length) (ip ++ (" port".toList ++ rest)) := by simp
    refine ⟨(none, kw ++ (" for ".toList ++ (inv ++ (user ++ (" from ".toList ++
        (ip ++ (" port".toList ++ rest))))))), ⟨rfl, h⟩, (some ip, rest),
      ⟨(none, " for ".toList ++ (inv ++ (user ++ (" from ".toList ++
        (ip ++ (" port".toList ++ rest)))))), ?_, (some ip, rest),
      ⟨(none, inv ++ (user ++ (" from ".toList ++ (ip ++ (" port".toList ++ rest))))),
        ⟨rfl, rfl⟩, (some ip, rest),
      ⟨(none, user ++ (" from ".toList ++ (ip ++ (" port".toList ++ rest)))), ?_,
        (some ip, rest),
        ⟨(none, " from ".toList ++ (ip ++ (" port".toList ++ rest))),
          ⟨rfl, user, huser, rfl⟩, (some ip, rest),
          ⟨(none, ip ++ (" port".toList ++ rest)), ⟨rfl, rfl⟩, (some ip, rest),
            ⟨(some ip, " port".toList ++ rest),
              ⟨(none, " port".toList ++ rest), ⟨rfl, ip, hip, rfl⟩, ?_⟩,
              (none, rest), ⟨rfl, rfl⟩, rfl⟩,
            rfl⟩, rfl⟩, rfl⟩, rfl⟩, rfl⟩, rfl⟩
    · rcases hkw with rfl | rfl
      · exact Or.inl ⟨rfl, rfl⟩
      · exact Or.inr ⟨rfl, rfl⟩
    · rcases hinv with rfl | rfl
      · exact Or.inr rfl
      · exact Or.inl ⟨rfl, rfl⟩
    · simp


theorem tok_unique (u v x y : List Char) (hu : ∀ c ∈ u, isSpace c = false)
    (hv : ∀ c ∈ v, isSpace c = false) (h : u ++ ' ' :: x = v ++ ' ' :: y) :
    u = v ∧ x = y := by
  induction u generalizing v with
  | nil =>
    cases v with
    | nil => simpa using h
    | cons d ds =>
      simp at h
      have := hv d (by simp)
      rw [← h.1] at this
      exact absurd this (by decide)
  | cons c cs ih =>
    cases v with
    | nil =>
      simp at h
      have := hu c (by simp)
      rw [h.1] at this
      exact absurd this (by decide)
    | cons d ds =>
      simp at h
      obtain ⟨rfl, h⟩ := h
      have := ih ds (fun x hx => hu x (List.mem_cons_of_mem _ hx))
        (fun x hx => hv x (List.mem_cons_of_mem _ hx)) h
      exact ⟨by rw [this.1], this.2⟩

theorem matchHere_unique (inp ip rest ip2 rest2 : List Char)
    (h1 : MatchHere inp ip rest) (h2 : MatchHere inp ip2 rest2) : ip = ip2 := by
  obtain ⟨kw, inv, user, hkw, hinv, huser, hip, h⟩ := h1
  obtain ⟨kw2, inv2, user2, hkw2, hinv2, huser2, hip2, h'⟩ := h2
  rw [h] at h'
  have h3 := List.append_cancel_left h'
  have hpw : "password".toList = ['p', 'a', 's', 's', 'w', 'o', 'r', 'd'] := rfl
  have hpk : "publickey".toList = ['p', 'u', 'b', 'l', 'i', 'c', 'k', 'e', 'y'] := rfl
  have hfrom : " from ".toList = ' ' :: "from ".toList := rfl
  have hfrom2 : "from ".toList = ['f', 'r', 'o', 'm', ' '] := rfl
  have hport : " port".toList = ' ' :: "port".toList := rfl
  have hinvalid : "invalid user ".toList = "invalid".toList ++ ' ' :: "user ".toList := rfl
  have huser3 : "user ".toList = ['u', 's', 'e', 'r', ' '] := rfl
  have hinvtok : ∀ c ∈ "invalid".toList, isSpace c = false := by decide
  have key : ∀ (a b : List Char), user ++ (" from ".toList ++ (ip ++ (" port".toList ++ a))) =
      user2 ++ (" from ".toList ++ (ip2 ++ (" port".toList ++ b))) → ip = ip2 := by
    intro a b hab
    rw [hfrom, hport] at hab
    have e1 := tok_unique user user2 _ _ huser.2 huser2.2 hab
    have e2 := List.append_cancel_left e1.2
    exact (tok_unique ip ip2 _ _ hip.2 hip2.2 e2).1
  have hkweq : kw = kw2 := by
    rcases hkw with rfl | rfl <;> rcases hkw2 with rfl | rfl
    · rfl
    · rw [hpw, hpk] at h3; simp at h3
    · rw [hpw, hpk] at h3; simp at h3
    · rfl
  subst hkweq
  have h4 := List.append_cancel_left (List.append_cancel_left h3)
  rcases hinv with rfl | rfl <;> rcases hinv2 with rfl | rfl
  · exact key _ _ h4
  · exfalso
    rw [hinvalid, hfrom] at h4
    simp only [List.nil_append, List.append_assoc, List.cons_append] at h4
    have e1 := tok_unique user "invalid".toList _ _ huser.2 hinvtok h4
    rw [hfrom2, huser3] at e1
    simp at e1
  · exfalso
    rw [hinvalid, hfrom] at h4
    simp only [List.nil_append, List.append_assoc, List.cons_append] at h4
    have e1 := tok_unique user2 "invalid".toList _ _ huser2.2 hinvtok h4.symm
    rw [hfrom2, huser3] at e1
    simp at e1
  · exact key _ _ (List.append_cancel_left h4)

theorem findStringSubmatch_none (r : Regex) (line : List Char) :
    findStringSubmatch r line = none ↔ ∀ pre tail, line = pre ++ tail → r.run tail = [] := by
  induction line with
  | nil =>
    unfold findStringSubmatch
    cases h : r.run [] with
    | nil =>
      simp only [true_iff]
      intro pre tail ht
      simp at ht
      rw [ht.2, h]
    | cons p ps =>
      refine ⟨fun hh => by simp at hh, fun hall => ?_⟩
      have := hall [] [] rfl
      simp [h] at this
  | cons c cs ih =>
    unfold findStringSubmatch
    cases h : r.run (c :: cs) with
    | nil =>
      simp only [ih]
      constructor
      · intro hall pre tail ht
        cases pre with
        | nil => simp at ht; rw [← ht, h]
        | cons d ds =>
          simp at ht
          exact hall ds tail ht.2
      · intro hall pre tail ht
        exact hall (c :: pre) tail (by simp [ht])
    | cons p ps =>
      refine ⟨fun hh => by simp at hh, fun hall => ?_⟩
      have := hall [] (c :: cs) rfl
      simp [h] at this

theorem findStringSubmatch_some (r : Regex) (line : List Char) (m : List (List Char))
    (h : findStringSubmatch r line = some m) :
    ∃ pre tail p ps, line = pre ++ tail ∧ r.run tail = p :: ps ∧ m.getD 1 [] = p.1.getD [] ∧
      ∀ pre2 tail2, line = pre2 ++ tail2 → pre2.length < pre.length → r.run tail2 = [] := by
  induction line with
  | nil =>
    unfold findStringSubmatch at h
    cases hr : r.run [] with
    | nil => simp [hr] at h
    | cons p ps =>
      simp only [hr, Option.some.injEq] at h
      subst h
      exact ⟨[], [], p, ps, rfl, hr, rfl, by simp⟩
  | cons c cs ih =>
    unfold findStringSubmatch at h
    cases hr : r.run (c :: cs) with
    | nil =>
      simp only [hr] at h
      obtain ⟨pre, tail, p, ps, h1, h2, h3, h4⟩ := ih h
      refine ⟨c :: pre, tail, p, ps, by simp [h1], h2, h3, ?_⟩
      intro pre2 tail2 ht hlen
      cases pre2 with
      | nil => simp at ht; rw [← ht, hr]
      | cons d ds =>
        simp at ht hlen
        exact h4 ds tail2 ht.2 hlen
    | cons p ps =>
      simp only [hr, Option.some.injEq] at h
      subst h
      exact ⟨[], c :: cs, p, ps, rfl, hr, rfl, by simp⟩

theorem extractIP_leftmost (line pre ip : List Char) (h : Occurs line pre ip)
    (hmin : ∀ pre2 ip2, Occurs line pre2 ip2 → pre.length ≤ pre2.length) :
    extractIP exprs line = ip := by
  obtain ⟨tail, rest, hl, hm⟩ := h
  have hmem : (some ip, rest) ∈ failedLogin.run tail :=
    (run_failedLogin tail (some ip, rest)).2 ⟨ip, rfl, hm⟩
  unfold exprs extractIP
  cases hf : findStringSubmatch failedLogin line with
  | none =>
    have := (findStringSubmatch_none failedLogin line).1 hf pre tail hl
    rw [this] at hmem
    simp at hmem
  | some m =>
    obtain ⟨pre', tail', p, ps, h1, h2, h3, h4⟩ := findStringSubmatch_some _ _ _ hf
    have hp : p ∈ failedLogin.run tail' := by rw [h2]; simp
    obtain ⟨ip', hc, hm'⟩ := (run_failedLogin tail' p).1 hp
    have hle := hmin pre' ip' ⟨tail', p.2, h1, hm'⟩
    have hge : pre'.length ≤ pre.length := by
      by_contra hlt
      push_neg at hlt
      have := h4 pre tail hl hlt
      rw [this] at hmem
      simp at hmem
    have hlen : pre.length = pre'.length := le_antisymm hle hge
    rw [hl] at h1
    obtain ⟨_, rfl⟩ := List.append_inj h1 hlen
    simp only [h3, hc, Option.getD_some]
    exact matchHere_unique _ _ _ _ _ hm' hm

theorem extractIP_none (line : List Char) (h : ∀ pre ip, ¬ Occurs line pre ip) :
    extractIP exprs line = [] := by
  unfold exprs extractIP
  cases hf : findStringSubmatch failedLogin line with
  | none => rfl
  | some m =>
    exfalso
    obtain ⟨pre', tail', p, ps, h1, h2, h3, h4⟩ := findStringSubmatch_some _ _ _ hf
    have hp : p ∈ failedLogin.run tail' := by rw [h2]; simp
    obtain ⟨ip', hc, hm'⟩ := (run_failedLogin tail' p).1 hp
    exact h pre' ip' ⟨tail', p.2, h1, hm'⟩


theorem extractIP_sound (line : List Char) (h : extractIP exprs line ≠ []) :
    ∃ pre, Occurs line pre (extractIP exprs line) := by
  unfold exprs extractIP at h ⊢
  cases hf : findStringSubmatch failedLogin line with
  | none => simp [hf, extractIP] at h
  | some m =>
    obtain ⟨pre', tail', p, ps, h1, h2, h3, _⟩ := findStringSubmatch_some _ _ _ hf
    have hp : p ∈ failedLogin.run tail' := by rw [h2]; simp
    obtain ⟨ip', hc, hm'⟩ := (run_failedLogin tail' p).1 hp
    refine ⟨pre', tail', p.2, h1, ?_⟩
    simp only [h3, hc, Option.getD_some]
    exact hm'

theorem extractIP_complete (line pre ip : List Char) (h : Occurs line pre ip) :
    extractIP exprs line ≠ [] := by
  intro hnil
  obtain ⟨tail, rest, hl, hm⟩ := h
  have hmem : (some ip, rest) ∈ failedLogin.run tail :=
    (run_failedLogin tail (some ip, rest)).2 ⟨ip, rfl, hm⟩
  unfold exprs extractIP at hnil
  cases hf : findStringSubmatch failedLogin line with
  | none =>
    have := (findStringSubmatch_none failedLogin line).1 hf pre tail hl
    rw [this] at hmem
    simp at hmem
  | some m =>
    obtain ⟨pre', tail', p, ps, h1, h2, h3, _⟩ := findStringSubmatch_some _ _ _ hf
    have hp : p ∈ failedLogin.run tail' := by rw [h2]; simp
    obtain ⟨ip', hc, hm'⟩ := (run_failedLogin tail' p).1 hp
    simp only [hf, h3, hc, Option.getD_some] at hnil
    obtain ⟨_, _, _, _, _, _, hip, _⟩ := hm'
    exact hip.1 hnil

theorem processLogEntry_no_match (cfg : Config) (E : Engine) (K : Netlink) (now : Int)
    (line : List Char) (s : State) (h : extractIP exprs line = []) :
    processLogEntry cfg E K now line s = s := by
  simp [processLogEntry, h]

/-- C1: a line in which the failed-login phrase (`Failed password` or
`Failed publickey`, with or without `invalid user`) occurs yields the address token that
stands between ` from ` and ` port` in its leftmost occurrence, the token is not empty,
and a line in which the phrase does not occur yields the empty result and is discarded:
`processLogEntry` leaves the state as it was. -/
theorem C1_extraction (line : List Char) :
    (∀ pre ip, Occurs line pre ip →
      (∀ pre2 ip2, Occurs line pre2 ip2 → pre.length ≤ pre2.length) →
      extractIP exprs line = ip) ∧
    ((∃ pre ip, Occurs line pre ip) →
      extractIP exprs line ≠ [] ∧ ∃ pre, Occurs line pre (extractIP exprs line)) ∧
    ((¬ ∃ pre ip, Occurs line pre ip) →
      extractIP exprs line = [] ∧
      ∀ cfg E K now s, processLogEntry cfg E K now line s = s) := by
  refine ⟨fun pre ip h hmin => extractIP_leftmost line pre ip h hmin, ?_, ?_⟩
  · rintro ⟨pre, ip, h⟩
    have hne := extractIP_complete line pre ip h
    exact ⟨hne, extractIP_sound line hne⟩
  · intro h
    have hnil : extractIP exprs line = [] :=
      extractIP_none line (fun pre ip ho => h ⟨pre, ip, ho⟩)
    exact ⟨hnil, fun cfg E K now s => processLogEntry_no_match cfg E K now line s hnil⟩

/-! ## The masks of `CIDRMask` -/

theorem cidrBytes_zero_all (l : Nat) : (cidrBytes l 0).all (fun b => b == 0) = true := by
  induction l with
  | zero => rfl
  | succ l ih => simp [cidrBytes, ih]

theorem simpleMaskLength_zeros (l : Nat) (acc : Int) :
    simpleMaskLength (cidrBytes l 0) acc = acc := by
  cases l with
  | zero => rfl
  | succ l => simp [cidrBytes, simpleMaskLength, countOnes, cidrBytes_zero_all]

theorem simpleMaskLength_cidrBytes (l n : Nat) (acc : Int) (h : n ≤ 8 * l) :
    simpleMaskLength (cidrBytes l n) acc = acc + n := by
  induction l generalizing n acc with
  | zero =>
    have : n = 0 := by omega
    subst this
    simp [cidrBytes, simpleMaskLength]
  | succ l ih =>
    by_cases h8 : 8 ≤ n
    · simp only [cidrBytes, h8, if_true, simpleMaskLength]
      rw [ih (n - 8) (acc + 8) (by omega)]
      push_cast [Nat.cast_sub h8]
      ring
    · have hn : n < 8 := by omega
      simp only [cidrBytes, h8, if_false]
      interval_cases n <;>
        simp [simpleMaskLength, countOnes, cidrBytes_zero_all] <;> ring

theorem length_cidrBytes (l n : Nat) : (cidrBytes l n).length = l := by
  induction l generalizing n with
  | zero => rfl
  | succ l ih =>
    unfold cidrBytes
    split <;> simp [ih]

theorem Size_CIDRMask (ones bits : Int) (hb : bits = 32 ∨ bits = 128) (h0 : 0 ≤ ones)
    (h1 : ones ≤ bits) : Size (CIDRMask ones bits) = (ones, bits) := by
  obtain ⟨n, rfl⟩ := Int.eq_ofNat_of_zero_le h0
  have hlen : ∀ l : Nat, (n : Int) ≤ 8 * l → Size (cidrBytes l n) = ((n : Int), 8 * (l : Int)) := by
    intro l hl
    have hl' : n ≤ 8 * l := by omega
    simp only [Size, simpleMaskLength_cidrBytes l n 0 hl', length_cidrBytes]
    have : ¬ ((0 : Int) + n = -1) := by omega
    simp [this]
  rcases hb with rfl | rfl
  · have := hlen 4 (by omega)
    unfold CIDRMask
    rw [if_neg (by decide), if_neg (by omega)]
    exact this
  · have := hlen 16 (by omega)
    unfold CIDRMask
    rw [if_neg (by decide), if_neg (by omega)]
    exact this

/-! ## Claims about `ipToMask` -/

/-- C4, as the program computes it: the destination that `addBlackholeRoute` and
`removeBlackholeRoute` both hand to netlink is the input address, unchanged, paired with
the mask of its family: for an IPv4 address (4 bytes, or 16 bytes in IPv4-mapped form) the
mask of the IPv4 prefix over 32 bits, for any other address the mask of the IPv6 prefix
over 128 bits, whose prefix length is the configured one whenever that lies between 0
and the width (otherwise there is no mask). The address field is not masked. -/
theorem C4_ipToMask (cfg : Config) (ip : IP) :
    (ipToMask cfg ip).IP = ip ∧
    (To4 ip ≠ [] →
      (ipToMask cfg ip).Mask = CIDRMask cfg.ipv4PrefixLen 32 ∧
      (0 ≤ cfg.ipv4PrefixLen → cfg.ipv4PrefixLen ≤ 32 →
        Size (ipToMask cfg ip).Mask = (cfg.ipv4PrefixLen, 32))) ∧
    (To4 ip = [] →
      (ipToMask cfg ip).Mask = CIDRMask cfg.ipv6PrefixLen 128 ∧
      (0 ≤ cfg.ipv6PrefixLen → cfg.ipv6PrefixLen ≤ 128 →
        Size (ipToMask cfg ip).Mask = (cfg.ipv6PrefixLen, 128))) ∧
    (∀ (K : Netlink) (routes : List IPNet),
      addBlackholeRoute cfg K ip routes = K.RouteAdd (ipToMask cfg ip) routes ∧
      removeBlackholeRoute cfg K ip routes = K.RouteDel (ipToMask cfg ip) routes) := by
  refine ⟨rfl, ?_, ?_, fun _ _ => ⟨rfl, rfl⟩⟩
  · intro h4
    have hm : (ipToMask cfg ip).Mask = CIDRMask cfg.ipv4PrefixLen 32 := by
      simp [ipToMask, h4]
    refine ⟨hm, fun h0 h1 => ?_⟩
    rw [hm]
    exact Size_CIDRMask _ _ (Or.inl rfl) h0 h1
  · intro h4
    have hm : (ipToMask cfg ip).Mask = CIDRMask cfg.ipv6PrefixLen 128 := by
      simp [ipToMask, h4]
    refine ⟨hm, fun h0 h1 => ?_⟩
    rw [hm]
    exact Size_CIDRMask _ _ (Or.inr rfl) h0 h1

/-- C4 fails as stated: under the default configuration the destination computed for
2001:db8::1 has the address 2001:db8::1 itself, not the address with the bits beyond
the 64-bit prefix cleared (2001:db8::); with an IPv4 prefix of 24 the destination of
203.0.113.7 has the address 203.0.113.7, not 203.0.113.0; and with an IPv4 prefix of
40 the destination has no valid mask at all. -/
theorem C4_counterexample :
    (ipToMask defaultConfig (ParseIP "2001:db8::1".toList)).IP =
      [32, 1, 13, 184, 0, 0, 0, 0, 0, 0, 0, 0, 0, 0, 0, 1] ∧
    Mask (ParseIP "2001:db8::1".toList)
        (ipToMask defaultConfig (ParseIP "2001:db8::1".toList)).Mask =
      [32, 1, 13, 184, 0, 0, 0, 0, 0, 0, 0, 0, 0, 0, 0, 0] ∧
    (ipToMask defaultConfig (ParseIP "2001:db8::1".toList)).IP ≠
      Mask (ParseIP "2001:db8::1".toList)
        (ipToMask defaultConfig (ParseIP "2001:db8::1".toList)).Mask ∧
    To4 (ipToMask ⟨24, 64, 1800⟩ (ParseIP "203.0.113.7".toList)).IP = [203, 0, 113, 7] ∧
    Mask (ParseIP "203.0.113.7".toList)
        (ipToMask ⟨24, 64, 1800⟩ (ParseIP "203.0.113.7".toList)).Mask = [203, 0, 113, 0] ∧
    Size (ipToMask ⟨40, 64, 1800⟩ (ParseIP "203.0.113.7".toList)).Mask = (0, 0) := by
  decide

/-! ## What `ParseIP` accepts -/

theorem hexVal_none_not_digit (b : Char) (hb : hexVal b = none) : ¬ ('0' ≤ b ∧ b ≤ '9') := by
  intro h
  simp [hexVal, h] at hb

theorem parseIPv4FieldsLoop_keeps (b : Char) (hb : hexVal b = none) (hdot : b ≠ '.')
    (s : List Char) (atStart prevDot : Bool) (val pos digLen : Nat) (fields : List Nat)
    (hmem : b ∈ s) : parseIPv4FieldsLoop s atStart prevDot val pos digLen fields = none := by
  induction s generalizing atStart prevDot val pos digLen fields with
  | nil => simp at hmem
  | cons c cs ih =>
    unfold parseIPv4FieldsLoop
    by_cases hc : '0' ≤ c ∧ c ≤ '9'
    · have hne : b ≠ c := by
        rintro rfl
        exact hexVal_none_not_digit b hb hc
      have hmem' : b ∈ cs := by simpa [hne] using hmem
      simp only [hc, and_self, if_true]
      split
      · rfl
      · split
        · rfl
        · exact ih _ _ _ _ _ _ hmem'
    · simp only [hc, if_false]
      by_cases hd : c = '.'
      · have hne : b ≠ c := by
          rw [hd]
          exact hdot
        have hmem' : b ∈ cs := by simpa [hne] using hmem
        simp only [hd, if_true]
        split
        · rfl
        · split
          · rfl
          · exact ih _ _ _ _ _ _ hmem'
      · simp only [hd, if_false]

theorem parseIPv4Fields_keeps (b : Char) (hb : hexVal b = none) (hdot : b ≠ '.')
    (s : List Char) (hmem : b ∈ s) : parseIPv4Fields s = none :=
  parseIPv4FieldsLoop_keeps b hb hdot s _ _ _ _ _ _ hmem

theorem hexGroupLoop_keeps (b : Char) (hb : hexVal b = none) (s : List Char) (acc off : Nat)
    (g : Nat × Nat) (hmem : b ∈ s) (h : hexGroupLoop s acc off = some g) :
    off ≤ g.2 ∧ b ∈ s.drop (g.2 - off) := by
  induction s generalizing acc off with
  | nil => simp at hmem
  | cons c cs ih =>
    unfold hexGroupLoop at h
    cases hc : hexVal c with
    | none =>
      simp only [hc, Option.some.injEq] at h
      subst h
      simpa using hmem
    | some d =>
      simp only [hc] at h
      by_cases h3 : 3 < off
      · simp [h3] at h
      · simp only [h3, if_false] at h
        by_cases hbig : 0xFFFF < acc * 16 + d
        · simp [hbig] at h
        · simp only [hbig, if_false] at h
          have hne : b ≠ c := by
            rintro rfl
            rw [hb] at hc
            cases hc
          have hmem' : b ∈ cs := by simpa [hne] using hmem
          obtain ⟨h1, h2⟩ := ih _ _ hmem' h
          refine ⟨by omega, ?_⟩
          have : g.2 - off = (g.2 - (off + 1)) + 1 := by omega
          rw [this, List.drop_succ_cons]
          exact h2

theorem parseIPv6Loop_keeps (b : Char) (hb : hexVal b = none) (hdot : b ≠ '.')
    (hcolon : b ≠ ':') (fuel : Nat) (s : List Char) (acc : List Nat) (ell : Option Nat)
    (r : List Char × List Nat × Option Nat)
    (hmem : b ∈ s) (h : parseIPv6Loop fuel s acc ell = some r) : b ∈ r.1 := by
  induction fuel generalizing s acc ell with
  | zero =>
    simp only [parseIPv6Loop, Option.some.injEq] at h
    rw [← h]
    exact hmem
  | succ fuel ih =>
    unfold parseIPv6Loop at h
    by_cases hlen : IPv6len ≤ acc.length
    · simp only [hlen, if_true, Option.some.injEq] at h
      rw [← h]
      exact hmem
    · simp only [hlen, if_false] at h
      cases hg : hexGroupLoop s 0 0 with
      | none => simp [hg] at h
      | some g =>
        simp only [hg] at h
        have hdrop : b ∈ s.drop g.2 := by
          simpa using (hexGroupLoop_keeps b hb s 0 0 g hmem hg).2
        by_cases h0 : g.2 = 0
        · simp [h0] at h
        · simp only [h0, if_false] at h
          by_cases hd : (s.drop g.2).head? = some '.'
          · simp only [hd, if_true] at h
            rw [parseIPv4Fields_keeps b hb hdot s hmem] at h
            split at h
            · cases h
            · split at h
              · cases h
              · cases h
          · simp only [hd, if_false] at h
            cases hs2 : s.drop g.2 with
            | nil => rw [hs2] at hdrop; simp at hdrop
            | cons c t1 =>
              cases t1 with
              | nil => simp [hs2] at h
              | cons d t =>
                rw [hs2] at hdrop
                simp only [hs2] at h
                by_cases hc : c = ':'
                · subst hc
                  have hm2 : b ∈ d :: t := by simpa [hcolon] using hdrop
                  simp only [ne_eq, not_true_eq_false, if_false] at h
                  by_cases hdd : d = ':'
                  · subst hdd
                    have hm3 : b ∈ t := by simpa [hcolon] using hm2
                    simp only [if_true] at h
                    split at h
                    · cases h
                    · cases t with
                      | nil => simp at hm3
                      | cons e es => exact ih _ _ _ hm3 h
                  · simp only [hdd, if_false] at h
                    exact ih _ _ _ hm2 h
                · simp [hc] at h

theorem parseIPv6Body_keeps (b : Char) (hb : hexVal b = none) (hdot : b ≠ '.')
    (hcolon : b ≠ ':') (s : List Char) (ip : IP) (h : parseIPv6Body s = some ip) :
    b ∉ s := by
  intro hmem
  unfold parseIPv6Body at h
  have hstart : b ∈ (match s with
      | ':' :: ':' :: t => (t, some 0)
      | _ => (s, (none : Option Nat))).1 := by
    split
    · rename_i t
      simpa [hcolon] using hmem
    · exact hmem
  generalize (match s with
      | ':' :: ':' :: t => (t, some 0)
      | _ => (s, (none : Option Nat))) = start at h hstart
  by_cases h0 : start.2 ≠ none ∧ start.1 = []
  · rw [h0.2] at hstart
    simp at hstart
  · simp only [h0, if_false] at h
    cases hp : parseIPv6Loop 8 start.1 [] start.2 with
    | none => simp [hp] at h
    | some r =>
      have hr := parseIPv6Loop_keeps b hb hdot hcolon _ _ _ _ _ hstart hp
      obtain ⟨rest, acc, ell⟩ := r
      simp only [hp] at h
      by_cases hrest : rest = []
      · subst hrest
        simp at hr
      · simp [hrest] at h

theorem parseIPv6_keeps (b : Char) (hb : hexVal b = none) (hdot : b ≠ '.')
    (hcolon : b ≠ ':') (inp : List Char) (ip : IP) (h : parseIPv6 inp = some (ip, [])) :
    b ∉ inp := by
  unfold parseIPv6 at h
  have hsplit := List.takeWhile_append_dropWhile (fun c => decide (c ≠ '%')) inp
  generalize inp.dropWhile (fun c => decide (c ≠ '%')) = tail at h hsplit
  generalize inp.takeWhile (fun c => decide (c ≠ '%')) = s at h hsplit
  cases tail with
  | nil =>
    rw [List.append_nil] at hsplit
    subst hsplit
    cases hbody : parseIPv6Body s with
    | none => simp [hbody] at h
    | some ip2 => exact parseIPv6Body_keeps b hb hdot hcolon s ip2 hbody
  | cons x xs =>
    cases xs with
    | nil => simp at h
    | cons y ys =>
      cases hbody : parseIPv6Body s with
      | none => simp [hbody] at h
      | some ip2 => simp [hbody] at h

/-- A text that `ParseIP` accepts holds only hexadecimal digits, dots and colons. -/
theorem ParseIP_keeps (b : Char) (hb : hexVal b = none) (hdot : b ≠ '.')
    (hcolon : b ≠ ':') (s : List Char) (h : ParseIP s ≠ []) : b ∉ s := by
  intro hmem
  unfold ParseIP at h
  cases hp : ParseAddr s with
  | none => simp [hp] at h
  | some r =>
    obtain ⟨ip, zone⟩ := r
    simp only [hp] at h
    by_cases hz : zone = []
    · subst hz
      unfold ParseAddr at hp
      split at hp
      · rw [parseIPv4Fields_keeps b hb hdot s hmem] at hp
        cases hp
      · exact parseIPv6_keeps b hb hdot hcolon s ip hp hmem
      · cases hp
    · simp [hz] at h

theorem ParseIP_quoteFree (s : List Char) (h : ParseIP s ≠ []) : QuoteFree s :=
  ParseIP_keeps quote (by decide) (by decide) (by decide) s h

/-! ## The expiry sweep -/

theorem routeOf_some_quoteFree (cfg : Config) (K : Netlink) (ip : List Char) (k : IPNet)
    (h : routeOf cfg K ip = some k) : QuoteFree ip := by
  apply ParseIP_quoteFree
  intro hnil
  simp [routeOf, Netlink.dest, ipToMask, hnil] at h

theorem expireBan_unfold (cfg : Config) (E : Engine) (K : Netlink) (s : State)
    (ip : List Char) :
    expireBan cfg E K s ip =
      match routeOf cfg K ip with
      | some k =>
        if k ∈ s.routes then
          { bans := (E.exec (.deleteFrom ip) s.bans).1, routes := s.routes.erase k }
        else s
      | none => s := by
  unfold expireBan removeBlackholeRoute Netlink.RouteDel routeOf
  cases hk : K.dest (ipToMask cfg (ParseIP ip)) with
  | none => simp [hk]
  | some k =>
    by_cases hmem : k ∈ s.routes
    · simp [hk, hmem]
    · simp [hk, hmem]

theorem expireBan_eq (cfg : Config) (E : Engine) (K : Netlink) (hE : E.Sound) (s : State)
    (ip : List Char) :
    expireBan cfg E K s ip =
      match routeOf cfg K ip with
      | some k =>
        if k ∈ s.routes then { bans := deleteRow ip s.bans, routes := s.routes.erase k } else s
      | none => s := by
  unfold expireBan removeBlackholeRoute Netlink.RouteDel
  cases hk : routeOf cfg K ip with
  | none =>
    unfold routeOf at hk
    simp [hk]
  | some k =>
    have hq := routeOf_some_quoteFree cfg K ip k hk
    unfold routeOf at hk
    simp only [hk]
    by_cases hmem : k ∈ s.routes
    · simp [hmem, hE.delete_ok ip s.bans hq]
    · simp [hmem]

theorem expireBan_routes (cfg : Config) (E : Engine) (K : Netlink) (hE : E.Sound) (s : State)
    (ip : List Char) (hr : s.routes.Nodup) :
    (expireBan cfg E K s ip).routes =
      s.routes.filter (fun k => decide (routeOf cfg K ip ≠ some k)) := by
  rw [expireBan_eq cfg E K hE]
  cases hk : routeOf cfg K ip with
  | none => simp
  | some k =>
    by_cases hmem : k ∈ s.routes
    · simp only [hmem, if_true]
      rw [hr.erase_eq_filter]
      apply List.filter_congr
      intro x _
      by_cases hx : x = k
      · simp [hx]
      · have hx' : ¬ k = x := fun h => hx h.symm
        simp [hx, hx']
    · simp only [hmem, if_false]
      symm
      rw [List.filter_eq_self]
      intro x hx
      simp only [ne_eq, Option.some.injEq, decide_not, Bool.not_eq_eq_eq_not, Bool.not_true,
        decide_eq_false_iff_not]
      rintro rfl
      exact hmem hx

theorem expireBan_bans_sublist (cfg : Config) (E : Engine) (K : Netlink) (hE : E.Sound)
    (s : State) (ip : List Char) : (expireBan cfg E K s ip).bans.Sublist s.bans := by
  rw [expireBan_eq cfg E K hE]
  cases hk : routeOf cfg K ip with
  | none => exact List.Sublist.refl _
  | some k =>
    by_cases hmem : k ∈ s.routes
    · simp only [hmem, if_true, deleteRow]
      exact List.filter_sublist _
    · simp only [hmem, if_false]
      exact List.Sublist.refl _

theorem expireBan_keeps_other (cfg : Config) (E : Engine) (K : Netlink) (hE : E.Sound)
    (s : State) (ip : List Char) (r : Ban) (hr : r ∈ s.bans) (hne : r.ip ≠ ip) :
    r ∈ (expireBan cfg E K s ip).bans := by
  rw [expireBan_eq cfg E K hE]
  cases hk : routeOf cfg K ip with
  | none => exact hr
  | some k =>
    by_cases hmem : k ∈ s.routes
    · simp only [hmem, if_true, deleteRow]
      simp [List.mem_filter, hr, hne]
    · simp only [hmem, if_false]
      exact hr

theorem sweep_routes (cfg : Config) (E : Engine) (K : Netlink) (hE : E.Sound)
    (ips : List (List Char)) (s : State) (hr : s.routes.Nodup) :
    (ips.foldl (expireBan cfg E K) s).routes =
      s.routes.filter (fun k => decide (∀ ip ∈ ips, routeOf cfg K ip ≠ some k)) := by
  induction ips generalizing s with
  | nil => simp
  | cons ip rest ih =>
    simp only [List.foldl_cons]
    have hr' : (expireBan cfg E K s ip).routes.Nodup := by
      rw [expireBan_routes cfg E K hE s ip hr]
      exact hr.filter _
    rw [ih _ hr', expireBan_routes cfg E K hE s ip hr, List.filter_filter]
    apply List.filter_congr
    intro x _
    simp only [List.mem_cons, forall_eq_or_imp, Bool.decide_and, Bool.and_comm]

theorem sweep_bans_sublist (cfg : Config) (E : Engine) (K : Netlink) (hE : E.Sound)
    (ips : List (List Char)) (s : State) :
    (ips.foldl (expireBan cfg E K) s).bans.Sublist s.bans := by
  induction ips generalizing s with
  | nil => exact List.Sublist.refl _
  | cons ip rest ih =>
    simp only [List.foldl_cons]
    exact (ih _).trans (expireBan_bans_sublist cfg E K hE s ip)

theorem sweep_keeps_other (cfg : Config) (E : Engine) (K : Netlink) (hE : E.Sound)
    (ips : List (List Char)) (s : State) (r : Ban) (hr : r ∈ s.bans) (hne : r.ip ∉ ips) :
    r ∈ (ips.foldl (expireBan cfg E K) s).bans := by
  induction ips generalizing s with
  | nil => exact hr
  | cons ip rest ih =>
    simp only [List.foldl_cons]
    simp only [List.mem_cons, not_or] at hne
    exact ih _ (expireBan_keeps_other cfg E K hE s ip r hr hne.1) hne.2

theorem sweep_deleted (cfg : Config) (E : Engine) (K : Netlink) (hE : E.Sound)
    (ips : List (List Char)) (s : State) (r : Ban) (hr : r ∈ s.bans)
    (hgone : r ∉ (ips.foldl (expireBan cfg E K) s).bans) :
    r.ip ∈ ips ∧ ∃ k, routeOf cfg K r.ip = some k ∧ k ∈ s.routes := by
  induction ips generalizing s with
  | nil => exact absurd hr hgone
  | cons ip rest ih =>
    simp only [List.foldl_cons] at hgone
    by_cases hin : r ∈ (expireBan cfg E K s ip).bans
    · obtain ⟨h1, k, h2, h3⟩ := ih _ hin hgone
      refine ⟨List.mem_cons_of_mem _ h1, k, h2, ?_⟩
      have hsub : (expireBan cfg E K s ip).routes.Sublist s.routes := by
        rw [expireBan_eq cfg E K hE]
        cases hk : routeOf cfg K ip with
        | none => exact List.Sublist.refl _
        | some k' =>
          by_cases hmem : k' ∈ s.routes
          · simp only [hmem, if_true]
            exact List.erase_sublist _ _
          · simp only [hmem, if_false]
            exact List.Sublist.refl _
      exact hsub.subset h3
    · have heq : r.ip = ip := by
        by_contra hne
        exact hin (expireBan_keeps_other cfg E K hE s ip r hr hne)
      refine ⟨by simp [heq], ?_⟩
      rw [expireBan_eq cfg E K hE] at hin
      cases hk : routeOf cfg K ip with
      | none => simp [hk] at hin; exact absurd hr hin
      | some k =>
        by_cases hmem : k ∈ s.routes
        · exact ⟨k, by rw [heq, hk], hmem⟩
        · simp [hk, hmem] at hin
          exact absurd hr hin

theorem sweep_deletes (cfg : Config) (E : Engine) (K : Netlink) (hE : E.Sound)
    (ips : List (List Char)) (s : State) (hn : s.routes.Nodup) (r : Ban) (k : IPNet)
    (hin : r.ip ∈ ips) (hk : routeOf cfg K r.ip = some k) (hmem : k ∈ s.routes)
    (hinj : ∀ ip ∈ ips, routeOf cfg K ip = some k → ip = r.ip) :
    r ∉ (ips.foldl (expireBan cfg E K) s).bans := by
  induction ips generalizing s with
  | nil => simp at hin
  | cons ip rest ih =>
    simp only [List.foldl_cons]
    by_cases heq : ip = r.ip
    · intro hmem'
      have h1 := (sweep_bans_sublist cfg E K hE rest _).subset hmem'
      rw [expireBan_eq cfg E K hE, heq, hk] at h1
      simp [hmem, deleteRow, List.mem_filter] at h1
    · have hin' : r.ip ∈ rest := by
        rcases List.mem_cons.1 hin with h | h
        · exact absurd h.symm heq
        · exact h
      have hne : routeOf cfg K ip ≠ some k := fun h => heq (hinj ip (by simp) h)
      have hn' : (expireBan cfg E K s ip).routes.Nodup := by
        rw [expireBan_routes cfg E K hE s ip hn]
        exact hn.filter _
      have hmem' : k ∈ (expireBan cfg E K s ip).routes := by
        rw [expireBan_routes cfg E K hE s ip hn]
        simp [List.mem_filter, hmem, hne]
      exact ih _ hn' hin' hmem' (fun ip' h' => hinj ip' (List.mem_cons_of_mem _ h'))

theorem scannedIPs_map_ok (ips : List (List Char)) :
    scannedIPs (ips.map Except.ok) = ips := by
  induction ips with
  | nil => rfl
  | cons ip rest ih => simp [scannedIPs, ih]

theorem mem_expiredIPs (now : Int) (t : Table) (ip : List Char) :
    ip ∈ expiredIPs now t ↔ ∃ r ∈ t, r.expiry_ts < now ∧ r.ip = ip := by
  simp [expiredIPs, List.mem_map, List.mem_filter, and_assoc]

/-- With a sound engine the sweep never ends the process: it is the fold of `expireBan`
over the addresses the query returns, a rearrangement of the expired ones. -/
theorem processTick_sound (cfg : Config) (E : Engine) (K : Netlink) (hE : E.Sound)
    (now : Int) (s : State) :
    ∃ ips : List (List Char), ips.Perm (expiredIPs now s.bans) ∧
      E.query now s.bans = .ok ⟨ips.map .ok, none⟩ ∧
      processTick cfg E K now s = .running (ips.foldl (expireBan cfg E K) s) := by
  obtain ⟨ips, hperm, hq⟩ := hE.query_ok now s.bans
  refine ⟨ips, hperm, hq, ?_⟩
  simp [processTick, hq, scannedIPs_map_ok]

/-! ## The reference engine -/

theorem sqlEngine_sound : sqlEngine.Sound where
  replace_ok := by
    intro ip ts t hq
    simp only [sqlEngine]
    rw [if_neg hq]
  delete_ok := by
    intro ip t hq
    simp only [sqlEngine]
    rw [if_neg hq]
  query_ok := fun now t => ⟨expiredIPs now t, List.Perm.refl _, rfl⟩

theorem nodup_deleteRow (ip : List Char) (t : Table) (h : (t.map Ban.ip).Nodup) :
    ((deleteRow ip t).map Ban.ip).Nodup :=
  h.sublist ((List.filter_sublist t).map Ban.ip)

theorem nodup_replaceRow (ip : List Char) (ts : Int) (t : Table)
    (h : (t.map Ban.ip).Nodup) : ((replaceRow ip ts t).map Ban.ip).Nodup := by
  unfold replaceRow
  rw [List.map_append, List.nodup_append]
  refine ⟨nodup_deleteRow ip t h, by simp, ?_⟩
  intro a ha hb
  simp only [List.map_cons, List.map_nil, List.mem_singleton] at hb
  subst hb
  simp only [List.mem_map, List.mem_filter, deleteRow] at ha
  obtain ⟨x, ⟨_, h1⟩, h2⟩ := ha
  simp [h2] at h1

theorem sqlEngine_keepsUnique : sqlEngine.KeepsUnique := by
  intro stmt t h
  cases stmt with
  | replaceInto ip ts =>
    simp only [sqlEngine]
    split
    · exact h
    · exact nodup_replaceRow ip ts t h
  | deleteFrom ip =>
    simp only [sqlEngine]
    split
    · exact h
    · exact nodup_deleteRow ip t h

/-! ## Claims about `processTick` -/

theorem sweep_routes_sublist (cfg : Config) (E : Engine) (K : Netlink)
    (ips : List (List Char)) (s : State) :
    (ips.foldl (expireBan cfg E K) s).routes.Sublist s.routes := by
  induction ips generalizing s with
  | nil => exact List.Sublist.refl _
  | cons ip rest ih =>
    simp only [List.foldl_cons]
    refine (ih _).trans ?_
    rw [expireBan_unfold]
    cases routeOf cfg K ip with
    | none => exact List.Sublist.refl _
    | some k =>
      by_cases hmem : k ∈ s.routes
      · simp only [hmem, if_true]
        exact List.erase_sublist _ _
      · simp only [hmem, if_false]
        exact List.Sublist.refl _

theorem removeBlackholeRoute_error (cfg : Config) (K : Netlink) (ip : List Char)
    (routes : List IPNet) (habsent : ∀ k, routeOf cfg K ip = some k → k ∉ routes) :
    ∃ e, removeBlackholeRoute cfg K (ParseIP ip) routes = .error e := by
  unfold removeBlackholeRoute Netlink.RouteDel
  cases hk : K.dest (ipToMask cfg (ParseIP ip)) with
  | none => exact ⟨"invalid argument", by simp [hk]⟩
  | some k =>
    have := habsent k hk
    exact ⟨"no such process", by simp [hk, this]⟩

theorem mem_ips_of_expired (now : Int) (t : Table) (ips : List (List Char))
    (hperm : ips.Perm (expiredIPs now t)) (ip : List Char) :
    ip ∈ ips ↔ ∃ r ∈ t, r.expiry_ts < now ∧ r.ip = ip := by
  rw [hperm.mem_iff, mem_expiredIPs]

theorem ban_eq_of_ip_eq (t : Table) (h : (t.map Ban.ip).Nodup) (r r2 : Ban) (hr : r ∈ t)
    (hr2 : r2 ∈ t) (heq : r.ip = r2.ip) : r = r2 :=
  List.inj_on_of_nodup_map h hr hr2 heq

/-- C5, as the program runs it: with a sound engine the sweep at `now` goes on (no exit)
and (1) keeps every record whose expiry is `>= now`, (2) adds or alters no record,
(3) deletes a record only when it has expired (`expiry_ts < now`, strictly) and its
route was installed and has been removed, (4) does delete an expired record whose route
was installed when no other expired address has the same route, (5) removes exactly the
routes of the expired addresses, and (6) leaves an expired record in the store only
without an installed route: its route removal failed and the delete was skipped. -/
theorem C5_sweep (cfg : Config) (E : Engine) (K : Netlink) (now : Int) (s : State)
    (hE : E.Sound) (hu : (s.bans.map Ban.ip).Nodup) (hr : s.routes.Nodup) :
    ∃ s1, processTick cfg E K now s = .running s1 ∧
      (∀ r ∈ s.bans, now ≤ r.expiry_ts → r ∈ s1.bans) ∧
      s1.bans.Sublist s.bans ∧
      (∀ r ∈ s.bans, r ∉ s1.bans →
        r.expiry_ts < now ∧
          ∃ k, routeOf cfg K r.ip = some k ∧ k ∈ s.routes ∧ k ∉ s1.routes) ∧
      (∀ r ∈ s.bans, r.expiry_ts < now → ∀ k, routeOf cfg K r.ip = some k → k ∈ s.routes →
        (∀ r2 ∈ s.bans, r2.expiry_ts < now → routeOf cfg K r2.ip = some k → r2.ip = r.ip) →
        r ∉ s1.bans) ∧
      s1.routes = s.routes.filter
        (fun k => decide (∀ r ∈ s.bans, r.expiry_ts < now → routeOf cfg K r.ip ≠ some k)) ∧
      (∀ r ∈ s1.bans, r.expiry_ts < now → ∀ k, routeOf cfg K r.ip = some k →
        k ∉ s1.routes) := by
  obtain ⟨ips, hperm, _, htick⟩ := processTick_sound cfg E K hE now s
  have hmem := mem_ips_of_expired now s.bans ips hperm
  have hroutes : (ips.foldl (expireBan cfg E K) s).routes = s.routes.filter
      (fun k => decide (∀ r ∈ s.bans, r.expiry_ts < now → routeOf cfg K r.ip ≠ some k)) := by
    rw [sweep_routes cfg E K hE ips s hr]
    apply List.filter_congr
    intro k _
    congr 1
    apply propext
    constructor
    · intro h r hrb hexp
      exact h r.ip ((hmem r.ip).2 ⟨r, hrb, hexp, rfl⟩)
    · intro h ip hip
      obtain ⟨r, hrb, hexp, rfl⟩ := (hmem ip).1 hip
      exact h r hrb hexp
  have hsub := sweep_bans_sublist cfg E K hE ips s
  refine ⟨_, htick, ?_, hsub, ?_, ?_, hroutes, ?_⟩
  · intro r hrb hle
    apply sweep_keeps_other cfg E K hE ips s r hrb
    intro hin
    obtain ⟨r2, hr2, hexp, heq⟩ := (hmem r.ip).1 hin
    have := ban_eq_of_ip_eq s.bans hu r2 r hr2 hrb heq
    subst this
    omega
  · intro r hrb hgone
    obtain ⟨hin, k, hk, hkin⟩ := sweep_deleted cfg E K hE ips s r hrb hgone
    obtain ⟨r2, hr2, hexp, heq⟩ := (hmem r.ip).1 hin
    have := ban_eq_of_ip_eq s.bans hu r2 r hr2 hrb heq
    subst this
    refine ⟨hexp, k, hk, hkin, ?_⟩
    rw [hroutes]
    simp only [List.mem_filter, decide_eq_true_eq, not_and, not_forall]
    intro _
    exact ⟨r2, hr2, hexp, fun h => h hk⟩
  · intro r hrb hexp k hk hkin hinj
    apply sweep_deletes cfg E K hE ips s hr r k ((hmem r.ip).2 ⟨r, hrb, hexp, rfl⟩) hk hkin
    intro ip hip hkip
    obtain ⟨r2, hr2, hexp2, rfl⟩ := (hmem ip).1 hip
    exact hinj r2 hr2 hexp2 hkip
  · intro r hrb hexp k hk
    rw [hroutes]
    simp only [List.mem_filter, decide_eq_true_eq, not_and, not_forall]
    intro _
    exact ⟨r, hsub.subset hrb, hexp, fun h => h hk⟩

/-- C5 at a concrete input: the sweep at 200 over `halfRoutedState` goes on, keeps no
unexpired record (there is none) and ends with an empty route table. -/
theorem C5_sweep_witness :
    (halfRoutedState.bans.map Ban.ip).Nodup ∧ halfRoutedState.routes.Nodup ∧
    ∃ s1, processTick defaultConfig sqlEngine netlinkExact 200 halfRoutedState = .running s1 ∧
      s1.bans.Sublist halfRoutedState.bans ∧
      s1.routes = halfRoutedState.routes.filter (fun k => decide (∀ r ∈ halfRoutedState.bans,
        r.expiry_ts < 200 → routeOf defaultConfig netlinkExact r.ip ≠ some k)) :=
  ⟨by decide, by decide,
    (C5_sweep defaultConfig sqlEngine netlinkExact 200 halfRoutedState sqlEngine_sound
      (by decide) (by decide)).imp fun _ h => ⟨h.1, h.2.2.1, h.2.2.2.2.2.1⟩⟩

/-- C5 fails as stated: in `halfRoutedState` both records have expired at 200 but the
route of 203.0.113.7 is not installed; after the sweep the store still holds that record,
whose expiry 100 is below 200. -/
theorem C5_counterexample :
    processTick defaultConfig sqlEngine netlinkExact 200 halfRoutedState =
      .running { bans := [⟨"203.0.113.7".toList, 100⟩], routes := [] } ∧
    ¬ (∀ s1, processTick defaultConfig sqlEngine netlinkExact 200 halfRoutedState =
        .running s1 → ∀ r ∈ s1.bans, 200 ≤ r.expiry_ts) := by
  have h : processTick defaultConfig sqlEngine netlinkExact 200 halfRoutedState =
      .running { bans := [⟨"203.0.113.7".toList, 100⟩], routes := [] } := by decide
  refine ⟨h, fun hall => ?_⟩
  have := hall _ h ⟨"203.0.113.7".toList, 100⟩ (by simp)
  simp at this

/-- C7, as the program runs it: an expired record whose route is not installed (so that
removing the route reports an error) is not deleted by the sweep; the delete is skipped,
the record stays and its route stays absent, so the same holds at every later sweep. -/
theorem C7_stale_record_kept (cfg : Config) (E : Engine) (K : Netlink) (now : Int)
    (s : State) (r : Ban) (hE : E.Sound) (hr : r ∈ s.bans) (hexp : r.expiry_ts < now)
    (habsent : ∀ k, routeOf cfg K r.ip = some k → k ∉ s.routes) :
    (∃ e, removeBlackholeRoute cfg K (ParseIP r.ip) s.routes = .error e) ∧
    ∃ s1, processTick cfg E K now s = .running s1 ∧ r ∈ s1.bans ∧ r.expiry_ts < now ∧
      ∀ k, routeOf cfg K r.ip = some k → k ∉ s1.routes := by
  obtain ⟨ips, _, _, htick⟩ := processTick_sound cfg E K hE now s
  refine ⟨?_, _, htick, ?_, hexp, ?_⟩
  · exact removeBlackholeRoute_error cfg K r.ip s.routes habsent
  · by_contra hgone
    obtain ⟨_, k, hk, hkin⟩ := sweep_deleted cfg E K hE ips s r hr hgone
    exact habsent k hk hkin
  · intro k hk hkin
    exact habsent k hk ((sweep_routes_sublist cfg E K ips s).subset hkin)

/-- C7 at a concrete input: the stale record of `staleState` survives the sweep. -/
theorem C7_stale_record_kept_witness :
    (⟨"192.0.2.44".toList, 1000⟩ : Ban) ∈ staleState.bans ∧ (1000 : Int) < 5000 ∧
    ∃ s1, processTick defaultConfig sqlEngine netlinkExact 5000 staleState = .running s1 ∧
      (⟨"192.0.2.44".toList, 1000⟩ : Ban) ∈ s1.bans :=
  ⟨by decide, by decide,
    (C7_stale_record_kept defaultConfig sqlEngine netlinkExact 5000 staleState
      ⟨"192.0.2.44".toList, 1000⟩ sqlEngine_sound (by decide) (by decide)
      (by intro k _; simp [staleState])).2.imp fun _ h => ⟨h.1, h.2.1⟩⟩

/-- C7 fails as stated: `staleState` holds a record that expired at 1000 and whose route
is absent; the sweep at 5000, and the one after it, leave the record in the store. -/
theorem C7_counterexample :
    routeOf defaultConfig netlinkExact "192.0.2.44".toList ∉
      staleState.routes.map some ∧
    processTick defaultConfig sqlEngine netlinkExact 5000 staleState = .running staleState ∧
    eventLoop defaultConfig sqlEngine netlinkExact [.tick 5000, .tick 5010] staleState =
      .running staleState := by
  decide

/-- C10: two sweeps in a row with no record newly expiring between them. The second sweep
leaves store and route table as the first left them, and for every record it selects the
route removal reports an error, so it removes no route and deletes no record. -/
theorem C10_tick_idempotent (cfg : Config) (E : Engine) (K : Netlink) (now1 now2 : Int)
    (s s1 : State) (hE : E.Sound) (hr : s.routes.Nodup)
    (h1 : processTick cfg E K now1 s = .running s1)
    (hnew : ∀ r ∈ s1.bans, r.expiry_ts < now2 → r.expiry_ts < now1) :
    processTick cfg E K now2 s1 = .running s1 ∧
    ∀ r ∈ s1.bans, r.expiry_ts < now2 →
      ∃ e, removeBlackholeRoute cfg K (ParseIP r.ip) s1.routes = .error e := by
  obtain ⟨ips, hperm, _, htick⟩ := processTick_sound cfg E K hE now1 s
  rw [htick] at h1
  have hs1 : s1 = ips.foldl (expireBan cfg E K) s := by
    injection h1 with h1
    exact h1.symm
  have hmem := mem_ips_of_expired now1 s.bans ips hperm
  have habsent : ∀ r ∈ s1.bans, r.expiry_ts < now2 →
      ∀ k, routeOf cfg K r.ip = some k → k ∉ s1.routes := by
    intro r hrb hexp k hk
    have hexp1 := hnew r hrb hexp
    have hrs : r ∈ s.bans := by
      rw [hs1] at hrb
      exact (sweep_bans_sublist cfg E K hE ips s).subset hrb
    have hin : r.ip ∈ ips := (hmem r.ip).2 ⟨r, hrs, hexp1, rfl⟩
    rw [hs1, sweep_routes cfg E K hE ips s hr]
    simp only [List.mem_filter, decide_eq_true_eq, not_and, not_forall]
    intro _
    exact ⟨r.ip, hin, fun h => h hk⟩
  obtain ⟨ips2, hperm2, _, htick2⟩ := processTick_sound cfg E K hE now2 s1
  have hmem2 := mem_ips_of_expired now2 s1.bans ips2 hperm2
  have hfix : ∀ l : List (List Char), (∀ ip ∈ l, ip ∈ ips2) →
      l.foldl (expireBan cfg E K) s1 = s1 := by
    intro l
    induction l with
    | nil => intro _; rfl
    | cons ip rest ih =>
      intro hl
      simp only [List.foldl_cons]
      have hstep : expireBan cfg E K s1 ip = s1 := by
        obtain ⟨r, hrb, hexp, rfl⟩ := (hmem2 ip).1 (hl ip (by simp))
        rw [expireBan_unfold]
        cases hk : routeOf cfg K r.ip with
        | none => rfl
        | some k => simp [habsent r hrb hexp k hk]
      rw [hstep]
      exact ih (fun ip' h' => hl ip' (List.mem_cons_of_mem _ h'))
  refine ⟨by rw [htick2, hfix ips2 (fun _ h => h)], ?_⟩
  intro r hrb hexp
  exact removeBlackholeRoute_error cfg K r.ip s1.routes (habsent r hrb hexp)

/-- C10 at a concrete input: the sweep at 200 over `halfRoutedState`, then the sweep at
210. -/
theorem C10_tick_idempotent_witness :
    halfRoutedState.routes.Nodup ∧
    processTick defaultConfig sqlEngine netlinkExact 200 halfRoutedState =
      .running { bans := [⟨"203.0.113.7".toList, 100⟩], routes := [] } ∧
    processTick defaultConfig sqlEngine netlinkExact 210
      { bans := [⟨"203.0.113.7".toList, 100⟩], routes := [] } =
      .running { bans := [⟨"203.0.113.7".toList, 100⟩], routes := [] } :=
  ⟨by decide, by decide,
    (C10_tick_idempotent defaultConfig sqlEngine netlinkExact 200 210 halfRoutedState
      { bans := [⟨"203.0.113.7".toList, 100⟩], routes := [] } sqlEngine_sound (by decide)
      (by decide) (by decide)).1⟩

/-- C6, as the program runs it: an error of the expired-bans query, or of the row
iteration (`rows.Err`), ends the process through `log.Fatal`, with store and routes as
they were, and the event loop handles no further event. A failed `rows.Scan` only skips
its row, and handling a log line never ends the process: after it the loop goes on with
the next event, whatever the engine and the kernel reported. -/
theorem C6_fatal_on_read_error (cfg : Config) (E : Engine) (K : Netlink) (now : Int)
    (s : State) :
    (∀ e, E.query now s.bans = .error e →
      processTick cfg E K now s = .exited s ∧
      ∀ rest, eventLoop cfg E K (.tick now :: rest) s = .exited s) ∧
    (∀ rows e, E.query now s.bans = .ok rows → rows.err = some e →
      processTick cfg E K now s = .exited s ∧
      ∀ rest, eventLoop cfg E K (.tick now :: rest) s = .exited s) ∧
    (∀ rows, E.query now s.bans = .ok rows → rows.err = none →
      processTick cfg E K now s =
        .running ((scannedIPs rows.scans).foldl (expireBan cfg E K) s)) ∧
    (∀ e scans, scannedIPs (.error e :: scans) = scannedIPs scans) ∧
    (∀ line rest, eventLoop cfg E K (.logEntry now line :: rest) s =
      eventLoop cfg E K rest (processLogEntry cfg E K now line s)) := by
  refine ⟨?_, ?_, ?_, fun _ _ => rfl, fun _ _ => rfl⟩
  · intro e he
    have h : processTick cfg E K now s = .exited s := by simp [processTick, he]
    exact ⟨h, fun rest => by simp [eventLoop, h]⟩
  · intro rows e hq herr
    have h : processTick cfg E K now s = .exited s := by simp [processTick, hq, herr]
    exact ⟨h, fun rest => by simp [eventLoop, h]⟩
  · intro rows hq herr
    simp [processTick, hq, herr]

/-- C6 fails as stated: with an engine whose query fails, `processTick` ends the
process, and the log line that follows the tick is never handled; the same with an
engine whose row iteration fails. -/
theorem C6_counterexample :
    processTick defaultConfig brokenEngine netlinkExact 5000 bannedState =
      .exited bannedState ∧
    eventLoop defaultConfig brokenEngine netlinkExact
      [.tick 5000, .logEntry 5001 scenarioLine] bannedState = .exited bannedState ∧
    processTick defaultConfig failingRowsEngine netlinkExact 5000 bannedState =
      .exited bannedState := by
  decide

/-! ## Claims about `processLogEntry` -/

theorem wrapInt64_of_inInt64 (x : Int) (h : InInt64 x) : wrapInt64 x = x := by
  obtain ⟨h1, h2⟩ := h
  unfold wrapInt64
  rw [Int.emod_eq_of_lt (by omega) (by omega)]
  omega

theorem processLogEntry_unfold (cfg : Config) (E : Engine) (K : Netlink) (now : Int)
    (line : List Char) (s : State) (ha : extractIP exprs line ≠ []) :
    processLogEntry cfg E K now line s =
      { bans := (E.exec (.replaceInto (extractIP exprs line)
          (wrapInt64 (now + cfg.blacklistSeconds))) s.bans).1,
        routes :=
          match (E.exec (.replaceInto (extractIP exprs line)
              (wrapInt64 (now + cfg.blacklistSeconds))) s.bans).2 with
          | some _ => s.routes
          | none =>
            match routeOf cfg K (extractIP exprs line) with
            | none => s.routes
            | some k => if k ∈ s.routes then s.routes else s.routes ++ [k] } := by
  unfold processLogEntry addBlackholeRoute Netlink.RouteAdd routeOf
  simp only [ha, if_false]
  generalize E.exec (.replaceInto (extractIP exprs line)
    (wrapInt64 (now + cfg.blacklistSeconds))) s.bans = res
  obtain ⟨bans, err⟩ := res
  cases err with
  | some e => rfl
  | none =>
    cases hk : K.dest (ipToMask cfg (ParseIP (extractIP exprs line))) with
    | none => simp [hk]
    | some k =>
      by_cases hmem : k ∈ s.routes
      · simp [hk, hmem]
      · simp [hk, hmem]

theorem processLogEntry_sound (cfg : Config) (E : Engine) (K : Netlink) (now : Int)
    (line : List Char) (s : State) (hE : E.Sound) (ha : extractIP exprs line ≠ [])
    (hq : QuoteFree (extractIP exprs line)) :
    processLogEntry cfg E K now line s =
      { bans := replaceRow (extractIP exprs line) (wrapInt64 (now + cfg.blacklistSeconds))
          s.bans,
        routes :=
          match routeOf cfg K (extractIP exprs line) with
          | none => s.routes
          | some k => if k ∈ s.routes then s.routes else s.routes ++ [k] } := by
  rw [processLogEntry_unfold cfg E K now line s ha, hE.replace_ok _ _ _ hq]

theorem filter_replaceRow (ip : List Char) (ts : Int) (t : Table) :
    (replaceRow ip ts t).filter (fun r => decide (r.ip = ip)) = [⟨ip, ts⟩] := by
  unfold replaceRow
  rw [List.filter_append, List.filter_filter]
  have : List.filter (fun r : Ban => decide (r.ip = ip) && decide (r.ip ≠ ip)) t = [] := by
    rw [List.filter_eq_nil_iff]
    intro r _
    by_cases h : r.ip = ip <;> simp [h]
  rw [this]
  simp

theorem length_replaceRow (ip : List Char) (ts : Int) (t : Table)
    (hu : (t.map Ban.ip).Nodup) (r : Ban) (hr : r ∈ t) (hip : r.ip = ip) :
    (replaceRow ip ts t).length = t.length := by
  unfold replaceRow
  have hsplit := List.length_eq_length_filter_add (l := t) (fun r : Ban => decide (r.ip ≠ ip))
  have hone : (t.filter (fun r : Ban => ! decide (r.ip ≠ ip))).length = 1 := by
    have hnd : (t.filter (fun r : Ban => ! decide (r.ip ≠ ip))).Nodup :=
      (List.Nodup.of_map _ hu).filter _
    have hall : ∀ x ∈ t.filter (fun r : Ban => ! decide (r.ip ≠ ip)), x = r := by
      intro x hx
      simp only [ne_eq, decide_not, Bool.not_not, List.mem_filter, decide_eq_true_eq] at hx
      exact ban_eq_of_ip_eq t hu x r hx.1 hr (by rw [hx.2, hip])
    have hmem : r ∈ t.filter (fun r : Ban => ! decide (r.ip ≠ ip)) := by
      simp [List.mem_filter, hr, hip]
    cases hl : t.filter (fun r : Ban => ! decide (r.ip ≠ ip)) with
    | nil => rw [hl] at hmem; simp at hmem
    | cons x xs =>
      cases xs with
      | nil => rfl
      | cons y ys =>
        rw [hl] at hnd hall
        have hx := hall x (by simp)
        have hy := hall y (by simp)
        rw [hx, hy] at hnd
        simp at hnd
  rw [List.length_append, List.length_singleton]
  omega

theorem tok_extractIP (line : List Char) (ha : extractIP exprs line ≠ []) :
    Tok (extractIP exprs line) := by
  obtain ⟨pre, tail, rest, _, kw, inv, user, _, _, _, hip, _⟩ := extractIP_sound line ha
  exact hip

theorem processLogEntry_bans_origin (cfg : Config) (E : Engine) (K : Netlink) (now : Int)
    (line : List Char) (s : State) (hE : E.Sound)
    (hq : QuoteFree (extractIP exprs line)) :
    ∀ r ∈ (processLogEntry cfg E K now line s).bans,
      r ∈ s.bans ∨ r.expiry_ts = wrapInt64 (now + cfg.blacklistSeconds) := by
  intro r hr
  by_cases ha : extractIP exprs line = []
  · rw [processLogEntry_no_match cfg E K now line s ha] at hr
    exact Or.inl hr
  · rw [processLogEntry_sound cfg E K now line s hE ha hq] at hr
    simp only [replaceRow, List.mem_append, List.mem_filter, List.mem_singleton] at hr
    rcases hr with hr | rfl
    · exact Or.inl hr.1
    · exact Or.inr rfl

/-- C2, as the program runs it: a log line from which the token `a` is extracted at time
`now`, when `a` holds no single quote, the engine is sound, `now + d` fits `int64` and the
route table has no duplicate entry, leaves exactly one record for `a` in the store, with
expiry `now + d`. When `a` is an address whose destination the kernel files under `k`,
exactly one blackhole route `k` is installed afterwards and no other route has been
added; when `a` has no such destination, in particular when it does not parse as an IP
address, no route is installed and the route table is as it was. For the line of the
end-to-end scenario under the default configuration the address is 203.0.113.7, the
expiry `now + 1800` and the destination 203.0.113.7/32. -/
theorem C2_ban_recorded (cfg : Config) (E : Engine) (K : Netlink) (now : Int)
    (line : List Char) (s : State) (hE : E.Sound) (hr : s.routes.Nodup)
    (ha : extractIP exprs line ≠ []) (hq : QuoteFree (extractIP exprs line))
    (hov : InInt64 (now + cfg.blacklistSeconds)) :
    (processLogEntry cfg E K now line s).bans.filter
        (fun r => decide (r.ip = extractIP exprs line)) =
      [⟨extractIP exprs line, now + cfg.blacklistSeconds⟩] ∧
    (∀ k, routeOf cfg K (extractIP exprs line) = some k →
      (processLogEntry cfg E K now line s).routes.count k = 1 ∧
      ∀ k2 ∈ (processLogEntry cfg E K now line s).routes, k2 ∈ s.routes ∨ k2 = k) ∧
    (routeOf cfg K (extractIP exprs line) = none →
      (processLogEntry cfg E K now line s).routes = s.routes) ∧
    (ParseIP (extractIP exprs line) = [] →
      routeOf cfg K (extractIP exprs line) = none) ∧
    (line = scenarioLine → cfg = defaultConfig →
      extractIP exprs line = "203.0.113.7".toList ∧
      now + cfg.blacklistSeconds = now + 1800 ∧
      ipToMask cfg (ParseIP (extractIP exprs line)) = scenarioRoute ∧
      To4 scenarioRoute.IP = [203, 0, 113, 7] ∧ Size scenarioRoute.Mask = (32, 32)) := by
  rw [processLogEntry_sound cfg E K now line s hE ha hq, wrapInt64_of_inInt64 _ hov]
  refine ⟨filter_replaceRow _ _ _, ?_, ?_, ?_, ?_⟩
  · intro k hroute
    simp only [hroute]
    by_cases hmem : k ∈ s.routes
    · simp only [hmem, if_true]
      exact ⟨List.count_eq_one_of_mem hr hmem, fun k2 hk2 => Or.inl hk2⟩
    · simp only [hmem, if_false]
      refine ⟨?_, fun k2 hk2 => by simpa using hk2⟩
      rw [List.count_append, List.count_eq_zero_of_not_mem hmem]
      simp
  · intro hroute
    simp only [hroute]
  · intro hnil
    simp [routeOf, Netlink.dest, ipToMask, hnil]
  · rintro rfl rfl
    exact ⟨by decide, by rfl, by decide, by decide, by decide⟩

/-- C2 at the end-to-end scenario: from the empty state at time 1700000000 the store
holds the one row (203.0.113.7, 1700001800) and the route table the one route
203.0.113.7/32. -/
theorem C2_ban_recorded_witness :
    (([] : List IPNet).Nodup ∧ extractIP exprs scenarioLine ≠ [] ∧
      QuoteFree (extractIP exprs scenarioLine) ∧
      InInt64 (1700000000 + defaultConfig.blacklistSeconds)) ∧
    (processLogEntry defaultConfig sqlEngine netlinkExact 1700000000 scenarioLine
        ⟨[], []⟩).bans.filter (fun r => decide (r.ip = extractIP exprs scenarioLine)) =
      [⟨extractIP exprs scenarioLine, 1700000000 + defaultConfig.blacklistSeconds⟩] ∧
    (processLogEntry defaultConfig sqlEngine netlinkExact 1700000000 scenarioLine
        ⟨[], []⟩).routes.count scenarioRoute = 1 ∧
    processLogEntry defaultConfig sqlEngine netlinkExact 1700000000 scenarioLine ⟨[], []⟩ =
      ⟨[⟨"203.0.113.7".toList, 1700001800⟩], [scenarioRoute]⟩ :=
  have h := C2_ban_recorded defaultConfig sqlEngine netlinkExact 1700000000 scenarioLine
    ⟨[], []⟩ sqlEngine_sound (by decide) (by decide) (by decide) (by decide)
  ⟨by decide, h.1, (h.2.1 scenarioRoute (by decide)).1, by decide⟩

/-- C2 fails as stated: for the line that sshd writes when 203.0.113.7 fails to log in
under the user name `x from localhost port`, the token extracted is `localhost`; the
store then holds the record (localhost, 2800), `localhost` does not parse as an IP
address, and no blackhole route is installed. -/
theorem C2_counterexample :
    extractIP exprs injectedLine = "localhost".toList ∧
    ParseIP "localhost".toList = [] ∧
    processLogEntry defaultConfig sqlEngine netlinkExact 1000 injectedLine ⟨[], []⟩ =
      ⟨[⟨"localhost".toList, 2800⟩], []⟩ := by
  decide

/-- C8, as the program runs it: with a sound engine and a captured token without single
quote, the address of every record that `processLogEntry` writes is the captured token as
it stands, a non-empty text without any character of Go's `\s`; the record is written for
every such token, whether or not the token is an IP address, and the token is neither
validated nor brought to a canonical form: after the lines of 2001:db8::1 and of
2001:DB8::1 the store holds two records that denote the one address. -/
theorem C8_record_is_token (cfg : Config) (E : Engine) (K : Netlink) (now : Int)
    (line : List Char) (s : State) (hE : E.Sound)
    (hq : QuoteFree (extractIP exprs line)) :
    (∀ r ∈ (processLogEntry cfg E K now line s).bans,
      r ∈ s.bans ∨
        (r.ip = extractIP exprs line ∧ Tok r.ip ∧
          r.expiry_ts = wrapInt64 (now + cfg.blacklistSeconds))) ∧
    (extractIP exprs line ≠ [] →
      (⟨extractIP exprs line, wrapInt64 (now + cfg.blacklistSeconds)⟩ : Ban) ∈
        (processLogEntry cfg E K now line s).bans) ∧
    (∀ later : Int,
      (⟨"2001:db8::1".toList, wrapInt64 (now + cfg.blacklistSeconds)⟩ : Ban) ∈
        (processLogEntry cfg E K later upperLine
          (processLogEntry cfg E K now lowerLine s)).bans ∧
      (⟨"2001:DB8::1".toList, wrapInt64 (later + cfg.blacklistSeconds)⟩ : Ban) ∈
        (processLogEntry cfg E K later upperLine
          (processLogEntry cfg E K now lowerLine s)).bans ∧
      "2001:db8::1".toList ≠ "2001:DB8::1".toList ∧
      ParseIP "2001:db8::1".toList = ParseIP "2001:DB8::1".toList ∧
      ParseIP "2001:db8::1".toList ≠ []) := by
  refine ⟨?_, ?_, ?_⟩
  · by_cases ha : extractIP exprs line = []
    · rw [processLogEntry_no_match cfg E K now line s ha]
      exact fun r hr => Or.inl hr
    · rw [processLogEntry_sound cfg E K now line s hE ha hq]
      intro r hr
      simp only [replaceRow, List.mem_append, List.mem_filter, List.mem_singleton] at hr
      rcases hr with hr | rfl
      · exact Or.inl hr.1
      · exact Or.inr ⟨rfl, tok_extractIP line ha, rfl⟩
  · intro ha
    rw [processLogEntry_sound cfg E K now line s hE ha hq]
    simp [replaceRow]
  · intro later
    have hl : extractIP exprs lowerLine = "2001:db8::1".toList := by decide
    have hu : extractIP exprs upperLine = "2001:DB8::1".toList := by decide
    have hne : "2001:db8::1".toList ≠ "2001:DB8::1".toList := by decide
    rw [processLogEntry_sound cfg E K later upperLine _ hE (by rw [hu]; decide)
        (by rw [hu]; decide),
      processLogEntry_sound cfg E K now lowerLine s hE (by rw [hl]; decide)
        (by rw [hl]; decide), hl, hu]
    refine ⟨?_, ?_, hne, by decide, by decide⟩
    · simp [replaceRow, List.mem_filter, hne]
    · simp [replaceRow]

/-- C8 at a concrete input: the record that the scenario line writes. -/
theorem C8_record_is_token_witness :
    QuoteFree (extractIP exprs scenarioLine) ∧
    (⟨extractIP exprs scenarioLine, wrapInt64 (1000 + defaultConfig.blacklistSeconds)⟩ : Ban) ∈
      (processLogEntry defaultConfig sqlEngine netlinkExact 1000 scenarioLine ⟨[], []⟩).bans :=
  ⟨by decide,
    (C8_record_is_token defaultConfig sqlEngine netlinkExact 1000 scenarioLine ⟨[], []⟩
      sqlEngine_sound (by decide)).2.1 (by decide)⟩

/-- C8 fails as stated: the line `Failed password for root from evil port 22 ssh2`
makes `processLogEntry` write the record (evil, 2800), and `evil` does not parse as an
IP address (`net.ParseIP` returns nil); no route is added for it. And the lines of
2001:db8::1 and of 2001:DB8::1, two spellings that parse to the same address, leave two
records in the store (with one route). -/
theorem C8_counterexample :
    extractIP exprs hostnameLine = "evil".toList ∧
    ParseIP "evil".toList = [] ∧
    processLogEntry defaultConfig sqlEngine netlinkExact 1000 hostnameLine ⟨[], []⟩ =
      ⟨[⟨"evil".toList, 2800⟩], []⟩ ∧
    ParseIP "2001:db8::1".toList = ParseIP "2001:DB8::1".toList ∧
    processLogEntry defaultConfig sqlEngine netlinkExact 1001 upperLine
        (processLogEntry defaultConfig sqlEngine netlinkExact 1000 lowerLine ⟨[], []⟩) =
      ⟨[⟨"2001:db8::1".toList, 2800⟩, ⟨"2001:DB8::1".toList, 2801⟩],
        [ipToMask defaultConfig (ParseIP "2001:db8::1".toList)]⟩ := by
  decide

/-- C9: in `processLogEntry` the record is written before the route is applied. When the
store write fails no route is added: the route table is as it was. When the write
succeeded and the route add fails, the outcome is the written store with the old route
table, and with a sound engine the record of the address is in it. -/
theorem C9_record_before_route (cfg : Config) (E : Engine) (K : Netlink) (now : Int)
    (line : List Char) (s : State) (ha : extractIP exprs line ≠ []) :
    (∀ e, (E.exec (.replaceInto (extractIP exprs line)
        (wrapInt64 (now + cfg.blacklistSeconds))) s.bans).2 = some e →
      (processLogEntry cfg E K now line s).routes = s.routes) ∧
    ((E.exec (.replaceInto (extractIP exprs line)
        (wrapInt64 (now + cfg.blacklistSeconds))) s.bans).2 = none →
      ∀ e, addBlackholeRoute cfg K (ParseIP (extractIP exprs line)) s.routes = .error e →
        processLogEntry cfg E K now line s =
          { bans := (E.exec (.replaceInto (extractIP exprs line)
              (wrapInt64 (now + cfg.blacklistSeconds))) s.bans).1,
            routes := s.routes } ∧
        (E.Sound → QuoteFree (extractIP exprs line) →
          (⟨extractIP exprs line, wrapInt64 (now + cfg.blacklistSeconds)⟩ : Ban) ∈
            (processLogEntry cfg E K now line s).bans)) := by
  unfold processLogEntry
  simp only [ha, if_false]
  constructor
  · intro e he
    generalize E.exec (.replaceInto (extractIP exprs line)
      (wrapInt64 (now + cfg.blacklistSeconds))) s.bans = res at he
    obtain ⟨bans, err⟩ := res
    simp only at he
    subst he
    rfl
  · intro hnone e herr
    constructor
    · rw [herr]
      generalize E.exec (.replaceInto (extractIP exprs line)
        (wrapInt64 (now + cfg.blacklistSeconds))) s.bans = res at hnone
      obtain ⟨bans, err⟩ := res
      simp only at hnone
      subst hnone
      rfl
    · intro hE hq
      rw [herr, hE.replace_ok _ _ _ hq]
      simp [replaceRow]

/-- C9 at two concrete inputs: with an engine whose write fails the route table stays
empty, and re-detecting 203.0.113.7 while its route is installed (the route add reports
that the route exists) leaves the rewritten record in the store. -/
theorem C9_record_before_route_witness :
    extractIP exprs scenarioLine ≠ [] ∧
    (processLogEntry defaultConfig brokenEngine netlinkExact 1000 scenarioLine
      ⟨[], []⟩).routes = [] ∧
    processLogEntry defaultConfig sqlEngine netlinkExact 5000 scenarioLine bannedState =
      { bans := [⟨"203.0.113.7".toList, 6800⟩], routes := bannedState.routes } :=
  ⟨by decide,
    (C9_record_before_route defaultConfig brokenEngine netlinkExact 1000 scenarioLine
      ⟨[], []⟩ (by decide)).1 "disk I/O error" (by decide),
    ((C9_record_before_route defaultConfig sqlEngine netlinkExact 5000 scenarioLine
      bannedState (by decide)).2 (by decide) "file exists" (by rfl)).1⟩

/-! ## One record per address along a run -/

theorem processLogEntry_nodup (cfg : Config) (E : Engine) (K : Netlink) (now : Int)
    (line : List Char) (s : State) (hU : E.KeepsUnique)
    (hu : (s.bans.map Ban.ip).Nodup) :
    ((processLogEntry cfg E K now line s).bans.map Ban.ip).Nodup := by
  by_cases ha : extractIP exprs line = []
  · rw [processLogEntry_no_match cfg E K now line s ha]
    exact hu
  · rw [processLogEntry_unfold cfg E K now line s ha]
    exact hU _ _ hu

theorem expireBan_nodup (cfg : Config) (E : Engine) (K : Netlink) (s : State)
    (ip : List Char) (hU : E.KeepsUnique) (hu : (s.bans.map Ban.ip).Nodup) :
    ((expireBan cfg E K s ip).bans.map Ban.ip).Nodup := by
  rw [expireBan_unfold]
  cases routeOf cfg K ip with
  | none => exact hu
  | some k =>
    by_cases hmem : k ∈ s.routes
    · simp only [hmem, if_true]
      exact hU _ _ hu
    · simp only [hmem, if_false]
      exact hu

theorem sweep_nodup (cfg : Config) (E : Engine) (K : Netlink) (ips : List (List Char))
    (s : State) (hU : E.KeepsUnique) (hu : (s.bans.map Ban.ip).Nodup) :
    (((ips.foldl (expireBan cfg E K) s)).bans.map Ban.ip).Nodup := by
  induction ips generalizing s with
  | nil => exact hu
  | cons ip rest ih =>
    simp only [List.foldl_cons]
    exact ih _ (expireBan_nodup cfg E K s ip hU hu)

theorem processTick_nodup (cfg : Config) (E : Engine) (K : Netlink) (now : Int) (s : State)
    (hU : E.KeepsUnique) (hu : (s.bans.map Ban.ip).Nodup) :
    ((processTick cfg E K now s).state.bans.map Ban.ip).Nodup := by
  unfold processTick
  cases E.query now s.bans with
  | error e => exact hu
  | ok rows =>
    cases hr : rows.err with
    | some e => simp only [hr]; exact hu
    | none => simp only [hr]; exact sweep_nodup cfg E K _ s hU hu

theorem eventLoop_nodup (cfg : Config) (E : Engine) (K : Netlink) (evs : List Event)
    (s : State) (hU : E.KeepsUnique) (hu : (s.bans.map Ban.ip).Nodup) :
    ((eventLoop cfg E K evs s).state.bans.map Ban.ip).Nodup := by
  induction evs generalizing s with
  | nil => exact hu
  | cons ev rest ih =>
    cases ev with
    | logEntry now line =>
      simp only [eventLoop]
      exact ih _ (processLogEntry_nodup cfg E K now line s hU hu)
    | tick now =>
      simp only [eventLoop]
      have h := processTick_nodup cfg E K now s hU hu
      cases hp : processTick cfg E K now s with
      | running s1 =>
        rw [hp] at h
        exact ih _ h
      | exited s1 =>
        rw [hp] at h
        exact h

theorem processLogEntry_bound (cfg : Config) (E : Engine) (K : Netlink) (t bound : Int)
    (line : List Char) (s : State) (hE : E.Sound) (hq : QuoteFree (extractIP exprs line))
    (hov : InInt64 (t + cfg.blacklistSeconds)) (ht : t + cfg.blacklistSeconds ≤ bound)
    (hb : ∀ r ∈ s.bans, r.expiry_ts ≤ bound) :
    ∀ r ∈ (processLogEntry cfg E K t line s).bans, r.expiry_ts ≤ bound := by
  intro r hr
  rcases (processLogEntry_bans_origin cfg E K t line s hE hq) r hr with h | h
  · exact hb r h
  · rw [h, wrapInt64_of_inInt64 _ hov]
    exact ht

theorem eventLoop_bound (cfg : Config) (E : Engine) (K : Netlink) (bound : Int)
    (evs : List Event) (s s1 : State) (hE : E.Sound)
    (hevs : ∀ t l, Event.logEntry t l ∈ evs → QuoteFree (extractIP exprs l) ∧
      InInt64 (t + cfg.blacklistSeconds) ∧ t + cfg.blacklistSeconds ≤ bound)
    (hb : ∀ r ∈ s.bans, r.expiry_ts ≤ bound)
    (hrun : eventLoop cfg E K evs s = .running s1) :
    ∀ r ∈ s1.bans, r.expiry_ts ≤ bound := by
  induction evs generalizing s with
  | nil =>
    simp only [eventLoop, Run.running.injEq] at hrun
    rw [← hrun]
    exact hb
  | cons ev rest ih =>
    have hrest : ∀ t l, Event.logEntry t l ∈ rest → QuoteFree (extractIP exprs l) ∧
        InInt64 (t + cfg.blacklistSeconds) ∧ t + cfg.blacklistSeconds ≤ bound :=
      fun t l h => hevs t l (List.mem_cons_of_mem _ h)
    cases ev with
    | logEntry t line =>
      simp only [eventLoop] at hrun
      obtain ⟨hq, hov, ht⟩ := hevs t line (by simp)
      exact ih _ hrest (processLogEntry_bound cfg E K t bound line s hE hq hov ht hb) hrun
    | tick t =>
      simp only [eventLoop] at hrun
      obtain ⟨ips, _, _, htick⟩ := processTick_sound cfg E K hE t s
      rw [htick] at hrun
      simp only at hrun
      refine ih _ hrest ?_ hrun
      intro r hr
      exact hb r ((sweep_bans_sublist cfg E K hE ips s).subset hr)

/-- C3, as the program runs it. From a store with one record per address text and with
an engine that keeps the `UNIQUE` constraint of the table, after every sequence of
log-line and tick events the store holds no two records with the same address text.
When such a run has reached a state in which the text `a` has a record and a line then
re-detects `a` at time `now` (sound engine, no single quote in `a`, `now + d` within
`int64`), the record is replaced by the one record (a, now + d), the number of records is
unchanged and the other records stay. The new expiry is not before the old one when,
besides, the store at the start held no expiry above `now + d` and the earlier lines of
the run were handled at clock readings not above `now`, with sums within `int64` and
tokens without single quote. -/
theorem C3_one_record_per_address (cfg : Config) (E : Engine) (K : Netlink) (s0 : State)
    (hU : E.KeepsUnique) (hu : (s0.bans.map Ban.ip).Nodup) :
    (∀ evs, ((eventLoop cfg E K evs s0).state.bans.map Ban.ip).Nodup) ∧
    (∀ (pre : List Event) (now : Int) (line : List Char) (s1 : State) (r : Ban),
      E.Sound → eventLoop cfg E K pre s0 = .running s1 → r ∈ s1.bans →
      extractIP exprs line = r.ip → r.ip ≠ [] → QuoteFree r.ip →
      InInt64 (now + cfg.blacklistSeconds) →
      (processLogEntry cfg E K now line s1).bans.filter (fun x => decide (x.ip = r.ip)) =
        [⟨r.ip, now + cfg.blacklistSeconds⟩] ∧
      (processLogEntry cfg E K now line s1).bans.length = s1.bans.length ∧
      (∀ r2 ∈ s1.bans, r2.ip ≠ r.ip → r2 ∈ (processLogEntry cfg E K now line s1).bans) ∧
      ((∀ r0 ∈ s0.bans, r0.expiry_ts ≤ now + cfg.blacklistSeconds) →
        (∀ t l, Event.logEntry t l ∈ pre → QuoteFree (extractIP exprs l) ∧
          InInt64 (t + cfg.blacklistSeconds) ∧ t ≤ now) →
        r.expiry_ts ≤ now + cfg.blacklistSeconds)) := by
  refine ⟨fun evs => eventLoop_nodup cfg E K evs s0 hU hu, ?_⟩
  intro pre now line s1 r hE hrun hr hline hne hq hov
  have hu1 : (s1.bans.map Ban.ip).Nodup := by
    have := eventLoop_nodup cfg E K pre s0 hU hu
    rw [hrun] at this
    exact this
  have ha : extractIP exprs line ≠ [] := by rw [hline]; exact hne
  have hq1 : QuoteFree (extractIP exprs line) := by rw [hline]; exact hq
  rw [processLogEntry_sound cfg E K now line s1 hE ha hq1, hline,
    wrapInt64_of_inInt64 _ hov]
  refine ⟨filter_replaceRow _ _ _, length_replaceRow _ _ _ hu1 r hr rfl, ?_, ?_⟩
  · intro r2 hr2 hne2
    simp [replaceRow, List.mem_filter, hr2, hne2]
  · intro h0 hpre
    exact eventLoop_bound cfg E K (now + cfg.blacklistSeconds) pre s0 s1 hE
      (fun t l h => by
        obtain ⟨h1, h2, h3⟩ := hpre t l h
        exact ⟨h1, h2, by omega⟩) h0 hrun r hr

/-- C3 at a concrete run: 203.0.113.7 is banned at 1000, a tick passes at 1010, and the
address is detected again at 1500; its one record moves from expiry 2800 to 3300. -/
theorem C3_one_record_per_address_witness :
    (((⟨[], []⟩ : State).bans.map Ban.ip).Nodup) ∧
    eventLoop defaultConfig sqlEngine netlinkExact
      [.logEntry 1000 scenarioLine, .tick 1010] ⟨[], []⟩ = .running bannedState ∧
    (processLogEntry defaultConfig sqlEngine netlinkExact 1500 scenarioLine
        bannedState).bans.filter (fun x => decide (x.ip = "203.0.113.7".toList)) =
      [⟨"203.0.113.7".toList, 1500 + defaultConfig.blacklistSeconds⟩] ∧
    (processLogEntry defaultConfig sqlEngine netlinkExact 1500 scenarioLine
        bannedState).bans.length = bannedState.bans.length ∧
    (2800 : Int) ≤ 1500 + defaultConfig.blacklistSeconds :=
  have h := (C3_one_record_per_address defaultConfig sqlEngine netlinkExact ⟨[], []⟩
    sqlEngine_keepsUnique (by decide)).2
    [.logEntry 1000 scenarioLine, .tick 1010] 1500 scenarioLine bannedState
    ⟨"203.0.113.7".toList, 2800⟩ sqlEngine_sound (by decide) (by decide) (by decide)
    (by decide) (by decide) (by decide)
  ⟨by decide, by decide, h.1, h.2.1,
    h.2.2.2 (by decide) (by
      intro t l hmem
      simp only [List.mem_cons, Event.logEntry.injEq, List.mem_singleton,
        reduceCtorEq, or_false, List.not_mem_nil] at hmem
      obtain ⟨rfl, rfl⟩ := hmem
      decide)⟩

/-- C3 fails as stated, in three ways. A record of 203.0.113.7 that a former run left
with expiry 100000 is still unexpired at 1000, and re-detecting the address then moves
its expiry back to 2800. When the clock reads 1000 at the first detection and 500 at the
second, the expiry moves back from 2800 to 2300. And the lines of 203.0.113.7 and of
::ffff:203.0.113.7, which parse to the same address, leave two records in the store. -/
theorem C3_counterexample :
    ((1000 : Int) ≤ 100000 ∧
      processLogEntry defaultConfig sqlEngine netlinkExact 1000 scenarioLine inheritedState =
        ⟨[⟨"203.0.113.7".toList, 2800⟩], [scenarioRoute]⟩) ∧
    (eventLoop defaultConfig sqlEngine netlinkExact [.logEntry 1000 scenarioLine] ⟨[], []⟩ =
        .running ⟨[⟨"203.0.113.7".toList, 2800⟩], [scenarioRoute]⟩ ∧
      eventLoop defaultConfig sqlEngine netlinkExact
          [.logEntry 1000 scenarioLine, .logEntry 500 scenarioLine] ⟨[], []⟩ =
        .running ⟨[⟨"203.0.113.7".toList, 2300⟩], [scenarioRoute]⟩) ∧
    (ParseIP "203.0.113.7".toList = ParseIP "::ffff:203.0.113.7".toList ∧
      eventLoop defaultConfig sqlEngine netlinkExact
          [.logEntry 1000 scenarioLine, .logEntry 1001 mappedLine] ⟨[], []⟩ =
        .running ⟨[⟨"203.0.113.7".toList, 2800⟩, ⟨"::ffff:203.0.113.7".toList, 2801⟩],
          [scenarioRoute]⟩) := by
  decide

end Blackhole
